import Mathlib

attribute [local semireducible] Rat.add Rat.mul Rat.sub Rat.inv Rat.ofScientific

/-!
Shallow embedding of the DiscreteNet variable-constraint-graph (VCG) builder and
feature extractor (`discretenet/problem.py`, methods
`Problem.get_variable_constraint_graph` and `Problem.get_features`).

The Pyomo model layer is represented abstractly: a constraint carries the results of
the introspection calls the code makes on it (`has_lb`/`has_ub`/`lower`/`upper`,
`decompose_term(body)`, `identify_variables(body)`), and the model carries the
constraint list in declaration order together with the decomposition of the
objective expression and the objective sense.  Python floats are modelled as `ℚ`;
statistics whose value involves a real square root (standard deviations and
coefficients of variation of nonempty data, square-root-normalized means) are
represented symbolically by the rational data they are computed from, since no
claim depends on their numeric value.
-/

namespace DiscreteNet

/-- Domain bucket returned by `Problem._get_variable_domain`. -/
inductive Domain
  | continuous
  | integer
  | binary
deriving DecidableEq, Repr

/-- Objective sense (`objective.is_minimizing()`). -/
inductive Sense
  | minimize
  | maximize
deriving DecidableEq, Repr

/-- A Pyomo variable, reduced to the two things the code reads from it:
`var.getname()` and `Problem._get_variable_domain(var)`. -/
structure PyVar where
  name : String
  domain : Domain
deriving DecidableEq, Repr

/-- One `(coeff, var)` pair produced by `pyomo...decompose_term`; `var = none`
marks a constant term. -/
structure Term where
  coeff : ℚ
  var : Option PyVar
deriving DecidableEq, Repr

/-- One constraint, as observed through the calls the builder makes on it.
`body` is `decompose_term(constr.body)`: `some terms` when the decomposition
succeeds (linear), `none` when it fails (nonlinear).  `bodyVars` is
`identify_variables(constr.body)`, used only in the nonlinear branch. -/
structure Constr where
  name : String
  lb : Option ℚ
  ub : Option ℚ
  body : Option (List Term)
  bodyVars : List PyVar
deriving DecidableEq, Repr

/-- The model, as observed by `get_variable_constraint_graph`/`get_features`:
constraints in declaration order, the decomposition of `model.objective.expr`
(`none` when the objective is nonlinear), and the objective sense. -/
structure Model where
  constraints : List Constr
  objBody : Option (List Term)
  objSense : Sense
deriving DecidableEq, Repr

/-- Attribute record of a networkx graph node.  Every attribute the code ever
sets is a field; `none` models an absent dictionary key. -/
structure NodeData where
  type : Option String := none
  domain : Option Domain := none
  kind : Option String := none
  original_kind : Option String := none
  is_linear : Option Bool := none
  bound : Option ℚ := none
  obj_coeff : Option ℚ := none
deriving DecidableEq, Repr

/-- An undirected edge with its attribute record (`is_linear`, optional `coeff`). -/
structure Edge where
  u : String
  v : String
  is_linear : Option Bool := none
  coeff : Option ℚ := none
deriving DecidableEq, Repr

/-- Does this edge join the unordered pair (a, b)? -/
def Edge.joins (e : Edge) (a b : String) : Bool :=
  (e.u == a && e.v == b) || (e.u == b && e.v == a)

/-- The neighbour of node `n` along edge `e` (as yielded by `G.edges([n])`). -/
def Edge.otherEnd (e : Edge) (n : String) : String :=
  if e.u == n then e.v else e.u

/-- In-place attribute update performed by `add_edge` on an existing edge: the
supplied keys overwrite (`is_linear` is always supplied; `coeff` only when the
Python call passes it) — repeated `coeff` writes for the same
(variable, constraint) pair silently overwrite, they do not sum. -/
def Edge.updatedBy (e : Edge) (lin : Bool) (c : Option ℚ) : Edge :=
  { e with is_linear := some lin,
           coeff := match c with | some x => some x | none => e.coeff }

/-- A `networkx.Graph`: insertion-ordered node list with attribute records, and a
list of undirected edges.  `add_node`/`add_edge` on an existing node/edge update
the supplied attribute keys in place, so the node list never holds a name twice
and the edge list never holds an unordered pair twice. -/
structure Graph where
  nodes : List (String × NodeData)
  edges : List Edge
deriving DecidableEq, Repr

namespace Graph

/-- The empty graph (`nx.Graph()`). -/
def empty : Graph := ⟨[], []⟩

def hasNode (g : Graph) (n : String) : Bool :=
  g.nodes.any (fun p => p.1 == n)

def nodeData (g : Graph) (n : String) : Option NodeData :=
  (g.nodes.find? (fun p => p.1 == n)).map (·.2)

/-- Update the attribute record of node `n` through `f`, creating the node with
an empty record first when absent (the create case is exercised by
`add_node`; attribute assignment `G.nodes[n][k] = v` is only reached by the
code on nodes that already exist). -/
def updNode (g : Graph) (n : String) (f : NodeData → NodeData) : Graph :=
  if g.hasNode n then
    { g with nodes := g.nodes.map (fun p => if p.1 == n then (p.1, f p.2) else p) }
  else
    { g with nodes := g.nodes ++ [(n, f {})] }

/-- Model of `G.add_node(name, type="constraint", kind=…, original_kind=…,
is_linear=…)`: sets exactly the supplied keys, keeping any others. -/
def addConstrNode (g : Graph) (n : String) (kind okind : String) (lin : Bool) : Graph :=
  g.updNode n (fun d =>
    { d with type := some "constraint", kind := some kind,
             original_kind := some okind, is_linear := some lin })

/-- Model of `G.add_node(name, type="variable", domain=…)`. -/
def addVarNode (g : Graph) (n : String) (dom : Domain) : Graph :=
  g.updNode n (fun d => { d with type := some "variable", domain := some dom })

/-- Model of `G.nodes[n]["bound"] = b`. -/
def setBound (g : Graph) (n : String) (b : ℚ) : Graph :=
  g.updNode n (fun d => { d with bound := some b })

/-- Model of `G.nodes[n]["obj_coeff"] = c`. -/
def setObjCoeff (g : Graph) (n : String) (c : ℚ) : Graph :=
  g.updNode n (fun d => { d with obj_coeff := some c })

/-- Ensure a node exists (attribute-free creation performed by `add_edge` for
missing endpoints). -/
def ensureNode (g : Graph) (n : String) : Graph :=
  if g.hasNode n then g else { g with nodes := g.nodes ++ [(n, {})] }

/-- Model of `G.add_edge(a, b, is_linear=lin)` (when `c = none`) and of
`G.add_edge(a, b, is_linear=lin, coeff=x)` (when `c = some x`): missing
endpoints are created, and if the unordered pair already has an edge its
supplied attribute keys are overwritten in place — repeated `coeff` writes
for the same (variable, constraint) pair silently overwrite, they do not sum. -/
def addEdge (g : Graph) (a b : String) (lin : Bool) (c : Option ℚ) : Graph :=
  let g := (g.ensureNode a).ensureNode b
  if g.edges.any (fun e => e.joins a b) then
    { g with edges := g.edges.map (fun e => if e.joins a b then e.updatedBy lin c else e) }
  else
    { g with edges := g.edges ++ [{ u := a, v := b, is_linear := some lin, coeff := c }] }

/-- Node degree (`G.degree[n]`): number of incident edge endpoints, self-loops
counting twice. -/
def degree (g : Graph) (n : String) : ℕ :=
  (g.edges.countP (fun e => e.u == n)) + (g.edges.countP (fun e => e.v == n))

/-- Model of `G.edges([n])`: the edges incident to `n`, each listed once. -/
def incidentEdges (g : Graph) (n : String) : List Edge :=
  g.edges.filter (fun e => e.u == n || e.v == n)

/-- Model of `G.copy()` followed by `remove_nodes_from(ns)`: drop the named
nodes and every edge touching one of them. -/
def removeNodes (g : Graph) (ns : List String) : Graph :=
  { nodes := g.nodes.filter (fun p => !(ns.contains p.1)),
    edges := g.edges.filter (fun e => !(ns.contains e.u) && !(ns.contains e.v)) }

end Graph

/-- Message of the `NotImplementedError` raised for ranged constraints. -/
def rangedMsg : String := "Double-bounded constraints are not supported"

/-- Message of the `ValueError` raised for an objective-only variable. -/
def objVarMsg (n : String) : String :=
  "Variable " ++ n ++ " appears in the objective function without participating in any constraints"

/-- Normalization of one constraint's bound configuration (the case split at the
top of the constraint loop).  Returns (sign multiplier, bound before
constant-term absorption, kind, original_kind).  A constraint with two distinct
bounds raises `NotImplementedError`; a constraint with no bounds at all falls
into the equality branch (`None == None`) with `bound = None` and then crashes
on `bound *= multiplier` (`TypeError`). -/
def normalizeBounds (c : Constr) : Except String (ℚ × ℚ × String × String) :=
  match c.lb, c.ub with
  | some l, none => .ok (-1, l, "leq", "geq")
  | none, some u => .ok (1, u, "leq", "leq")
  | some l, some u => if l = u then .ok (1, u, "eq", "eq") else .error rangedMsg
  | none, none => .error "TypeError: unsupported operand type for *: NoneType"

/-- One iteration of the nonlinear branch of the constraint loop: create/reuse
the variable node and add a coefficient-free edge. -/
def nonlinStep (cname : String) (g : Graph) (v : PyVar) : Graph :=
  (g.addVarNode v.name v.domain).addEdge cname v.name false none

/-- One iteration over the linear term list, carrying (graph, running bound):
a constant term adjusts the bound (`bound -= coeff * multiplier`); a variable
term creates/reuses the variable node and adds an edge whose `coeff` attribute
is the raw decomposition coefficient (the sign multiplier is *not* applied to
it). -/
def linStep (cname : String) (mult : ℚ) (st : Graph × ℚ) (t : Term) : Graph × ℚ :=
  match t.var with
  | none => (st.1, st.2 - t.coeff * mult)
  | some v =>
    ((st.1.addVarNode v.name v.domain).addEdge cname v.name true (some t.coeff), st.2)

/-- Processing of one constraint by the builder loop: normalize the bounds, add
the constraint node, walk the body (nonlinear variables or linear terms), and
finally record the accumulated bound on the constraint node. -/
def processConstraint (g : Graph) (c : Constr) : Except String Graph :=
  match normalizeBounds c with
  | .error e => .error e
  | .ok (mult, b0, kind, okind) =>
    let g := g.addConstrNode c.name kind okind c.body.isSome
    match c.body with
    | none =>
      .ok ((c.bodyVars.foldl (nonlinStep c.name) g).setBound c.name (b0 * mult))
    | some terms =>
      let st := terms.foldl (linStep c.name mult) (g, b0 * mult)
      .ok (st.1.setBound c.name st.2)

/-- The objective multiplier: `1 if minimizing else -1`. -/
def objMult (s : Sense) : ℚ :=
  match s with
  | .minimize => 1
  | .maximize => -1

/-- The objective pass: when the objective decomposes linearly, tag every
participating variable node with `obj_coeff = coeff * objective_multiplier`,
skipping constant terms, and raise `ValueError` for a variable absent from the
graph (a variable that participates in no constraint). -/
def objStep (sense : Sense) (g : Graph) (t : Term) : Except String Graph :=
  match t.var with
  | none => .ok g
  | some v =>
    if g.hasNode v.name then
      .ok (g.setObjCoeff v.name (t.coeff * objMult sense))
    else
      .error (objVarMsg v.name)

/-- The objective pass as a fold of `objStep` over the objective terms (a no-op
when the objective decomposition failed). -/
def objectivePass (m : Model) (g : Graph) : Except String Graph :=
  match m.objBody with
  | none => .ok g
  | some terms => terms.foldlM (objStep m.objSense) g

/-- Model of `Problem.get_variable_constraint_graph`: fold the constraint loop
over the model's constraints starting from the empty graph, then run the
objective pass. -/
def get_variable_constraint_graph (m : Model) : Except String Graph := do
  let g ← m.constraints.foldlM processConstraint Graph.empty
  objectivePass m g

/-! ### The feature extractor (`Problem.get_features`) -/

/-- A float value appearing in the feature mapping.  Values the code obtains by
field arithmetic are carried exactly as rationals; statistics whose value is a
real square root of rational data (`np.std`, `scipy.stats.variation` on nonempty
data, means/stddevs of √-normalized coefficients) are carried symbolically as the
rational data they are computed from, and a float division by zero (which numpy
turns into `inf`/`nan`, not an exception) is `nonfinite`.  No claim depends on
the numeric value of a symbolic statistic. -/
inductive FVal
  | q (x : ℚ)
  | std (xs : List ℚ)
  | cv (xs : List ℚ)
  | sqrtMean (xs : List (ℚ × ℕ))
  | sqrtStd (xs : List (ℚ × ℕ))
  | nonfinite
deriving DecidableEq, Repr

/-- Model of `np.mean` on a nonempty list. -/
def npMean (xs : List ℚ) : ℚ := xs.sum / xs.length

/-- Ascending sort, as used by `np.median`/`np.percentile`. -/
def sortQ (xs : List ℚ) : List ℚ := List.insertionSort (· ≤ ·) xs

/-- Model of `np.median` on a nonempty list. -/
def npMedian (xs : List ℚ) : ℚ :=
  let s := sortQ xs
  let n := s.length
  if n % 2 = 1 then s.getD (n / 2) 0
  else (s.getD (n / 2 - 1) 0 + s.getD (n / 2) 0) / 2

/-- Model of `np.percentile` with the default linear interpolation, on a
nonempty list. -/
def npPercentile (xs : List ℚ) (p : ℚ) : ℚ :=
  let s := sortQ xs
  let n := s.length
  if n = 0 then 0
  else
    let rank : ℚ := p / 100 * ((n : ℚ) - 1)
    let i : ℕ := rank.floor.toNat
    let frac : ℚ := rank - (i : ℚ)
    s.getD i 0 + frac * (s.getD (i + 1) 0 - s.getD i 0)

/-- The four degree statistics emitted for one selection: mean, median,
coefficient of variation, p90/p10 ratio; all exactly `0.0` when the degree list
is empty.  `np.percentile(…, 90) / np.percentile(…, 10)` is numpy float
division, which yields a non-finite float (no exception) when the denominator
is zero. -/
def degreeStats (pfx : String) (ds : List ℚ) : List (String × FVal) :=
  if ds.isEmpty then
    [(pfx ++ "_mean", .q 0), (pfx ++ "_median", .q 0),
     (pfx ++ "_cv", .q 0), (pfx ++ "_p90p10", .q 0)]
  else
    [(pfx ++ "_mean", .q (npMean ds)),
     (pfx ++ "_median", .q (npMedian ds)),
     (pfx ++ "_cv", .cv ds),
     (pfx ++ "_p90p10",
       if npPercentile ds 10 = 0 then .nonfinite
       else .q (npPercentile ds 90 / npPercentile ds 10))]

/-- Mean and coefficient of variation of one distribution; `0.0` when empty. -/
def meanCvStats (pfx : String) (xs : List ℚ) : List (String × FVal) :=
  if xs.isEmpty then [(pfx ++ "_mean", .q 0), (pfx ++ "_cv", .q 0)]
  else [(pfx ++ "_mean", .q (npMean xs)), (pfx ++ "_cv", .cv xs)]

/-- Mean and standard deviation of one distribution; `0.0` when empty. -/
def meanStdStats (pfx : String) (xs : List ℚ) : List (String × FVal) :=
  if xs.isEmpty then [(pfx ++ "_mean", .q 0), (pfx ++ "_stddev", .q 0)]
  else [(pfx ++ "_mean", .q (npMean xs)), (pfx ++ "_stddev", .std xs)]

/-- Mean and standard deviation of a √-normalized distribution of
(coefficient, participation count) pairs; `0.0` when empty. -/
def sqrtMeanStdStats (pfx : String) (xs : List (ℚ × ℕ)) : List (String × FVal) :=
  if xs.isEmpty then [(pfx ++ "_mean", .q 0), (pfx ++ "_stddev", .q 0)]
  else [(pfx ++ "_mean", .sqrtMean xs), (pfx ++ "_stddev", .sqrtStd xs)]

/-- The `variable_nodes` list: graph nodes whose `type` attribute is
`"variable"`, in graph (insertion) order. -/
def variableNodes (g : Graph) : List (String × NodeData) :=
  g.nodes.filter (fun p => p.2.type == some "variable")

/-- Variable nodes whose `domain` attribute is `"continuous"`. -/
def continuousVariableNodes (g : Graph) : List (String × NodeData) :=
  (variableNodes g).filter (fun p => p.2.domain == some Domain.continuous)

/-- Variable nodes whose `domain` attribute is not `"continuous"`. -/
def nonContinuousVariableNodes (g : Graph) : List (String × NodeData) :=
  (variableNodes g).filter (fun p => !(p.2.domain == some Domain.continuous))

/-- The `constraint_nodes` list: graph nodes whose `type` is `"constraint"`. -/
def constraintNodes (g : Graph) : List (String × NodeData) :=
  g.nodes.filter (fun p => p.2.type == some "constraint")

/-- Count of variable nodes in a given domain, as the code computes it (a full
scan of `vcg.nodes` checking both `type` and `domain`). -/
def numVarsInDomain (g : Graph) (d : Domain) : ℕ :=
  g.nodes.countP (fun p => p.2.type == some "variable" && p.2.domain == some d)

/-- The counting features, in insertion order.  The builder sets `is_linear` on
every constraint node and every edge, so reading it cannot `KeyError` on a
builder-produced graph; `== some false` models Python's `not data["is_linear"]`
there. -/
def countFeatures (g : Graph) : List (String × FVal) :=
  [("num_variables", .q ((variableNodes g).length)),
   ("num_constraints", .q ((constraintNodes g).length)),
   ("num_inequality_constraints",
     .q (((constraintNodes g).filter (fun p => p.2.kind == some "leq")).length)),
   ("num_equality_constraints",
     .q (((constraintNodes g).filter (fun p => p.2.kind == some "eq")).length)),
   ("num_linear_constraints",
     .q (((constraintNodes g).filter (fun p => p.2.is_linear == some true)).length)),
   ("num_nonlinear_constraints",
     .q (((constraintNodes g).filter (fun p => p.2.is_linear == some false)).length)),
   ("num_vcg_edges", .q (g.edges.length)),
   ("num_linear_vcg_edges", .q (g.edges.countP (fun e => e.is_linear == some true))),
   ("num_nonlinear_vcg_edges", .q (g.edges.countP (fun e => e.is_linear == some false))),
   ("num_binary_variables", .q (numVarsInDomain g Domain.binary)),
   ("num_integer_variables", .q (numVarsInDomain g Domain.integer)),
   ("num_continuous_variables", .q ((continuousVariableNodes g).length)),
   ("num_non_continuous_variables",
     .q (numVarsInDomain g Domain.binary + numVarsInDomain g Domain.integer))]

/-- The four fraction features.  In Python these are `int / int` true divisions
and raise `ZeroDivisionError` when the model has no variables; `get_features`
checks that case and errors before this list is ever formed, so the `ℚ`
division here is only evaluated with a nonzero denominator. -/
def fractionFeatures (g : Graph) : List (String × FVal) :=
  let nv : ℚ := ((variableNodes g).length : ℚ)
  [("fraction_binary_variables", .q ((numVarsInDomain g Domain.binary : ℚ) / nv)),
   ("fraction_integer_variables", .q ((numVarsInDomain g Domain.integer : ℚ) / nv)),
   ("fraction_continuous_variables", .q (((continuousVariableNodes g).length : ℚ) / nv)),
   ("fraction_non_continuous_variables",
     .q (((numVarsInDomain g Domain.binary + numVarsInDomain g Domain.integer : ℕ) : ℚ) / nv))]

/-- VCG variable-node degree statistics, for the three variable selections. -/
def variableDegreeBlock (g : Graph) : List (String × FVal) :=
  degreeStats "vcg_variable_node_degree"
      ((variableNodes g).map (fun p => (g.degree p.1 : ℚ)))
  ++ degreeStats "vcg_continuous_variable_node_degree"
      ((continuousVariableNodes g).map (fun p => (g.degree p.1 : ℚ)))
  ++ degreeStats "vcg_non_continuous_variable_node_degree"
      ((nonContinuousVariableNodes g).map (fun p => (g.degree p.1 : ℚ)))

/-- The degree list measured by the `vcg_…constraint_node_degree_*` block for
one selection: the code copies the graph, removes the complementary variable
set, and then collects the degrees of the remaining nodes whose `type` is
`"variable"` (it filters on `"variable"`, not `"constraint"`, although the
features are named after constraint nodes). -/
def constraintDegreeData (g : Graph) (toRemove : List (String × NodeData)) : List ℚ :=
  let g2 := g.removeNodes (toRemove.map (·.1))
  (g2.nodes.filter (fun p => p.2.type == some "variable")).map
    (fun p => (g2.degree p.1 : ℚ))

/-- VCG constraint-node degree statistics (as the code computes them), for the
three selections. -/
def constraintDegreeBlock (g : Graph) : List (String × FVal) :=
  degreeStats "vcg_constraint_node_degree" (constraintDegreeData g [])
  ++ degreeStats "vcg_continuous_constraint_node_degree"
      (constraintDegreeData g (nonContinuousVariableNodes g))
  ++ degreeStats "vcg_non_continuous_constraint_node_degree"
      (constraintDegreeData g (continuousVariableNodes g))

/-- Sum of the `coeff` attributes of the linear edges incident to node `n`
(`coeff_sum` accumulation over `vcg.edges([n], data=True)`).  The builder sets
`coeff` on every linear edge, so `getD 0` never papers over a missing key on a
builder-produced graph. -/
def linearCoeffSum (g : Graph) (n : String) : ℚ :=
  ((g.incidentEdges n).filter (fun e => e.is_linear == some true)).foldl
    (fun s e => s + e.coeff.getD 0) 0

/-- Variable coefficient-sum statistics, for the three variable selections. -/
def variableCoeffSumBlock (g : Graph) : List (String × FVal) :=
  meanCvStats "variable_coefficient_sum"
      ((variableNodes g).map (fun p => linearCoeffSum g p.1))
  ++ meanCvStats "continuous_variable_coefficient_sum"
      ((continuousVariableNodes g).map (fun p => linearCoeffSum g p.1))
  ++ meanCvStats "non_continuous_variable_coefficient_sum"
      ((nonContinuousVariableNodes g).map (fun p => linearCoeffSum g p.1))

/-- The per-constraint coefficient sums the `…constraint_coefficient_sum_*`
block computes: for every constraint node of the *unpruned* graph, the sum of
its incident linear-edge coefficients in the *unpruned* graph.  The code builds
a pruned copy (`vcg_copy`) for each selection but never reads from it, so all
three selections see these same sums. -/
def constraintCoeffSums (g : Graph) : List ℚ :=
  (constraintNodes g).map (fun p => linearCoeffSum g p.1)

/-- Constraint coefficient-sum statistics, for the three selections (identical
data for each, see `constraintCoeffSums`). -/
def constraintCoeffSumBlock (g : Graph) : List (String × FVal) :=
  meanCvStats "constraint_coefficient_sum" (constraintCoeffSums g)
  ++ meanCvStats "continuous_constraint_coefficient_sum" (constraintCoeffSums g)
  ++ meanCvStats "non_continuous_constraint_coefficient_sum" (constraintCoeffSums g)

/-- The normalized coefficients collected for one variable selection: for every
linear edge incident to a selected variable node, its `coeff` divided by the
`bound` attribute of the constraint endpoint, skipped when that bound is
exactly zero.  The builder sets `bound` on every constraint node, so the
`getD 0` default is never the value read on a builder-produced graph. -/
def normalizedCoeffs (g : Graph) (nodes : List (String × NodeData)) : List ℚ :=
  List.flatten (nodes.map (fun p =>
    (g.incidentEdges p.1).filterMap (fun e =>
      if e.is_linear == some true then
        let cb := ((g.nodeData (e.otherEnd p.1)).bind (fun d => d.bound)).getD 0
        if cb = 0 then none else some (e.coeff.getD 0 / cb)
      else none)))

/-- Normalized constraint-coefficient statistics, for the three selections. -/
def normalizedCoeffBlock (g : Graph) : List (String × FVal) :=
  meanCvStats "normalized_constraint_coefficient"
      (normalizedCoeffs g (variableNodes g))
  ++ meanCvStats "continuous_normalized_constraint_coefficient"
      (normalizedCoeffs g (continuousVariableNodes g))
  ++ meanCvStats "non_continuous_normalized_constraint_coefficient"
      (normalizedCoeffs g (nonContinuousVariableNodes g))

/-- The `objective_coefficients` list: (|coeff|, var) for every non-constant
term of the (linear) objective decomposition. -/
def absObjCoeffs (ts : List Term) : List (ℚ × PyVar) :=
  ts.filterMap (fun t => t.var.map (fun v => (|t.coeff|, v)))

/-- The continuous restriction of `absObjCoeffs`. -/
def contAbsObjCoeffs (ts : List Term) : List (ℚ × PyVar) :=
  ts.filterMap (fun t => match t.var with
    | some v => if v.domain = Domain.continuous then some (|t.coeff|, v) else none
    | none => none)

/-- The non-continuous restriction of `absObjCoeffs`. -/
def nonContAbsObjCoeffs (ts : List Term) : List (ℚ × PyVar) :=
  ts.filterMap (fun t => match t.var with
    | some v => if v.domain ≠ Domain.continuous then some (|t.coeff|, v) else none
    | none => none)

/-- Absolute objective-coefficient statistics, for the three selections. -/
def absObjBlock (ts : List Term) : List (String × FVal) :=
  meanStdStats "abs_objective_function_coefficients" ((absObjCoeffs ts).map (·.1))
  ++ meanStdStats "abs_objective_function_continuous_coefficients"
      ((contAbsObjCoeffs ts).map (·.1))
  ++ meanStdStats "abs_objective_function_non_continuous_coefficients"
      ((nonContAbsObjCoeffs ts).map (·.1))

/-- Objective coefficients divided by the number of constraints the variable
participates in (`len(vcg.edges([name]))`), skipping variables with zero
participation. -/
def normAbsObjData (g : Graph) (cd : List (ℚ × PyVar)) : List ℚ :=
  cd.filterMap (fun p =>
    let n := (g.incidentEdges p.2.name).length
    if n = 0 then none else some (p.1 / (n : ℚ)))

/-- Participation-normalized absolute objective-coefficient statistics. -/
def normAbsObjBlock (g : Graph) (ts : List Term) : List (String × FVal) :=
  meanStdStats "normalized_abs_objective_function_coefficients"
      (normAbsObjData g (absObjCoeffs ts))
  ++ meanStdStats "normalized_abs_objective_function_continuous_coefficients"
      (normAbsObjData g (contAbsObjCoeffs ts))
  ++ meanStdStats "normalized_abs_objective_function_non_continuous_coefficients"
      (normAbsObjData g (nonContAbsObjCoeffs ts))

/-- The (coefficient, participation count) pairs of the √-normalized block,
skipping variables with zero participation. -/
def sqrtNormAbsObjData (g : Graph) (cd : List (ℚ × PyVar)) : List (ℚ × ℕ) :=
  cd.filterMap (fun p =>
    let n := (g.incidentEdges p.2.name).length
    if n = 0 then none else some (p.1, n))

/-- √(participation)-normalized absolute objective-coefficient statistics. -/
def sqrtNormAbsObjBlock (g : Graph) (ts : List Term) : List (String × FVal) :=
  sqrtMeanStdStats "sqrt_normalized_abs_objective_function_coefficients"
      (sqrtNormAbsObjData g (absObjCoeffs ts))
  ++ sqrtMeanStdStats "sqrt_normalized_abs_objective_function_continuous_coefficients"
      (sqrtNormAbsObjData g (contAbsObjCoeffs ts))
  ++ sqrtMeanStdStats "sqrt_normalized_abs_objective_function_non_continuous_coefficients"
      (sqrtNormAbsObjData g (nonContAbsObjCoeffs ts))

/-- Constraint-bound statistics for the `leq`-kind and `eq`-kind distributions.
The code writes the standard deviation of the `eq` distribution under the key
`"eq_constraint_bonds_stddev"` — with this exact spelling, in both the empty
and the nonempty branch — although its docstring names the feature
`eq_constraint_bounds_stddev`. -/
def boundFeatures (g : Graph) : List (String × FVal) :=
  let leqB := (constraintNodes g).filterMap (fun p =>
    if p.2.kind == some "leq" then some (p.2.bound.getD 0) else none)
  let eqB := (constraintNodes g).filterMap (fun p =>
    if p.2.kind == some "eq" then some (p.2.bound.getD 0) else none)
  (if leqB.isEmpty then
    [("leq_constraint_bounds_mean", .q 0), ("leq_constraint_bounds_stddev", .q 0)]
   else
    [("leq_constraint_bounds_mean", .q (npMean leqB)),
     ("leq_constraint_bounds_stddev", .std leqB)])
  ++ (if eqB.isEmpty then
    [("eq_constraint_bounds_mean", .q 0), ("eq_constraint_bonds_stddev", .q 0)]
   else
    [("eq_constraint_bounds_mean", .q (npMean eqB)),
     ("eq_constraint_bonds_stddev", .std eqB)])

/-- The full feature mapping in insertion order, for a graph with at least one
variable node and a linear objective with decomposition `ts`.  All keys are
distinct, so the insertion-ordered association list is a faithful model of the
Python dict. -/
def featureList (g : Graph) (ts : List Term) : List (String × FVal) :=
  countFeatures g
  ++ fractionFeatures g
  ++ variableDegreeBlock g
  ++ constraintDegreeBlock g
  ++ variableCoeffSumBlock g
  ++ constraintCoeffSumBlock g
  ++ normalizedCoeffBlock g
  ++ absObjBlock ts
  ++ normAbsObjBlock g ts
  ++ sqrtNormAbsObjBlock g ts
  ++ boundFeatures g

/-- Model of `Problem.get_features`: build the graph, then compute the feature
mapping.  The two reachable exceptions of the Python body are modelled in
source order: the fraction features perform Python `int / int` division and
raise `ZeroDivisionError` when the model has no variables, and the objective
blocks iterate `decompose_term(objective.expr)[1]`, which is `None` (raising
`TypeError`) when the objective is nonlinear.  Every other attribute access in
the body reads an attribute the builder always sets. -/
def get_features (m : Model) : Except String (List (String × FVal)) := do
  let g ← get_variable_constraint_graph m
  if (variableNodes g).length = 0 then
    .error "ZeroDivisionError: division by zero"
  else
    match m.objBody with
    | none => .error "TypeError: NoneType object is not iterable"
    | some ts => .ok (featureList g ts)

/-- Value of a feature by key. -/
def featVal (fs : List (String × FVal)) (k : String) : Option FVal :=
  (fs.find? (fun p => p.1 == k)).map (·.2)

/-- Key membership in a feature mapping. -/
def hasKey (fs : List (String × FVal)) (k : String) : Bool :=
  fs.any (fun p => p.1 == k)

/-! ### Concrete example models -/

/-- A continuous variable `x`. -/
def xCont : PyVar := ⟨"x", Domain.continuous⟩

/-- A continuous variable `y`. -/
def yCont : PyVar := ⟨"y", Domain.continuous⟩

/-- A binary variable `z`. -/
def zBin : PyVar := ⟨"z", Domain.binary⟩

/-- Model with the single constraint `x >= 3` (lower bound only, linear body
`1*x`) and objective `minimize x`. -/
def geqModel : Model :=
  { constraints := [{ name := "c", lb := some 3, ub := none,
                      body := some [⟨1, some xCont⟩], bodyVars := [xCont] }],
    objBody := some [⟨1, some xCont⟩],
    objSense := Sense.minimize }

/-- Model with the single constraint `x + y <= 5` and objective `minimize x`. -/
def degModel : Model :=
  { constraints := [{ name := "c", lb := none, ub := some 5,
                      body := some [⟨1, some xCont⟩, ⟨1, some yCont⟩],
                      bodyVars := [xCont, yCont] }],
    objBody := some [⟨1, some xCont⟩],
    objSense := Sense.minimize }

/-- Model with the single mixed-domain constraint `x + 2 z <= 5` (x continuous,
z binary) and objective `minimize x`. -/
def mixModel : Model :=
  { constraints := [{ name := "c", lb := none, ub := some 5,
                      body := some [⟨1, some xCont⟩, ⟨2, some zBin⟩],
                      bodyVars := [xCont, zBin] }],
    objBody := some [⟨1, some xCont⟩],
    objSense := Sense.minimize }

/-- Model with the single constraint `x <= 5` and a nonlinear objective (its
decomposition fails, `decompose_term` returns `(False, None)`). -/
def nonlinObjModel : Model :=
  { constraints := [{ name := "c", lb := none, ub := some 5,
                      body := some [⟨1, some xCont⟩], bodyVars := [xCont] }],
    objBody := none,
    objSense := Sense.minimize }

/-- A linear constraint mentioning `x` twice: `1*x + 2*x <= 5`. -/
def dupConstr : Constr :=
  { name := "c", lb := none, ub := some 5,
    body := some [⟨1, some xCont⟩, ⟨2, some xCont⟩], bodyVars := [xCont] }

/-- Model whose single linear constraint mentions `x` twice:
`1*x + 2*x <= 5`, with objective `minimize x`. -/
def dupModel : Model :=
  { constraints := [dupConstr],
    objBody := some [⟨1, some xCont⟩],
    objSense := Sense.minimize }

/-- The ranged constraint `1 <= x <= 2`. -/
def rangedConstr : Constr :=
  { name := "c", lb := some 1, ub := some 2,
    body := some [⟨1, some xCont⟩], bodyVars := [xCont] }

/-- Model with the ranged constraint `1 <= x <= 2`. -/
def rangedModel : Model :=
  { constraints := [rangedConstr],
    objBody := some [⟨1, some xCont⟩],
    objSense := Sense.minimize }

/-- Model with constraint `x <= 5` and the linear objective `2*y + 5` whose
variable `y` appears in no constraint. -/
def objOnlyVarModel : Model :=
  { constraints := [{ name := "c", lb := none, ub := some 5,
                      body := some [⟨1, some xCont⟩], bodyVars := [xCont] }],
    objBody := some [⟨2, some yCont⟩, ⟨5, none⟩],
    objSense := Sense.minimize }

/-- Model with constraint `x <= 5` and the maximized linear objective
`2*x + 5` (constant term present, every objective variable constrained). -/
def maxObjModel : Model :=
  { constraints := [{ name := "c", lb := none, ub := some 5,
                      body := some [⟨1, some xCont⟩], bodyVars := [xCont] }],
    objBody := some [⟨2, some xCont⟩, ⟨5, none⟩],
    objSense := Sense.maximize }

/-! ### Lemmas about the graph operations -/

/-- Edge lookup: the `coeff` attribute of the edge joining `a` and `b`. -/
def edgeCoeff (g : Graph) (a b : String) : Option ℚ :=
  (g.edges.find? (fun e => e.joins a b)).bind (fun e => e.coeff)

lemma find?_map_upd (l : List (String × NodeData)) (m : String) (f : NodeData → NodeData)
    (n : String) :
    (l.map (fun p => if p.1 == m then (p.1, f p.2) else p)).find? (fun p => p.1 == n)
      = if n = m then (l.find? (fun p => p.1 == n)).map (fun p => (p.1, f p.2))
        else l.find? (fun p => p.1 == n) := by
  induction l with
  | nil => split <;> simp
  | cons p l ih =>
    simp only [List.map_cons, List.find?_cons]
    by_cases hm : p.1 = m
    · have hm' : ((p.1 : String) == m) = true := beq_iff_eq.mpr hm
      by_cases hn : p.1 = n
      · have hn' : ((p.1 : String) == n) = true := beq_iff_eq.mpr hn
        have hnm : n = m := hn.symm.trans hm
        simp only [hm', if_true, hn', hnm, if_pos]
        simp [hn']
      · have hn' : ((p.1 : String) == n) = false := beq_eq_false_iff_ne.mpr hn
        simp only [hm', if_true, hn']
        simpa [hn'] using ih
    · have hm' : ((p.1 : String) == m) = false := beq_eq_false_iff_ne.mpr hm
      by_cases hn : p.1 = n
      · have hn' : ((p.1 : String) == n) = true := beq_iff_eq.mpr hn
        have hnm : ¬ n = m := fun h => hm (hn.trans h)
        simp only [hm', hn', hnm]
        simp [hn', hnm]
      · have hn' : ((p.1 : String) == n) = false := beq_eq_false_iff_ne.mpr hn
        simp only [hm', hn']
        simpa [hn'] using ih

lemma hasNode_eq_isSome (g : Graph) (n : String) :
    g.hasNode n = (g.nodeData n).isSome := by
  unfold Graph.hasNode Graph.nodeData
  induction g.nodes with
  | nil => rfl
  | cons p l ih =>
    by_cases h : p.1 = n
    · simp [List.find?_cons, h]
    · simp only [List.any_cons, List.find?_cons]
      rw [show ((p.1 : String) == n) = false from beq_eq_false_iff_ne.mpr h]
      simpa using ih

lemma nodeData_updNode (g : Graph) (m : String) (f : NodeData → NodeData) (n : String) :
    (g.updNode m f).nodeData n =
      if n = m then some (f ((g.nodeData m).getD {})) else g.nodeData n := by
  by_cases hm : g.hasNode m = true
  · have hup : g.updNode m f =
        { g with nodes := g.nodes.map (fun p => if p.1 == m then (p.1, f p.2) else p) } := by
      unfold Graph.updNode
      rw [if_pos hm]
    rw [hup]
    simp only [Graph.nodeData]
    rw [find?_map_upd]
    by_cases hnm : n = m
    · subst hnm
      rw [if_pos rfl, if_pos rfl]
      have h1 : (g.nodeData n).isSome := by rw [← hasNode_eq_isSome]; exact hm
      obtain ⟨d, hd⟩ := Option.isSome_iff_exists.mp h1
      obtain ⟨p, hp, hp2⟩ := Option.map_eq_some'.mp (show (g.nodes.find?
          (fun p => p.1 == n)).map (fun p => p.2) = some d from hd)
      rw [hp]
      simp only [Option.map_some', Graph.nodeData] at hd ⊢
      rw [hp] at hd
      simp only [Option.map_some', Option.some.injEq] at hd
      simp [hd]
    · rw [if_neg hnm, if_neg hnm]
  · have hnone : g.nodes.find? (fun p => p.1 == m) = none := by
      have h2 := hasNode_eq_isSome g m
      rw [Bool.not_eq_true] at hm
      rw [hm] at h2
      simp only [Graph.nodeData] at h2
      cases hf : g.nodes.find? (fun p => p.1 == m) with
      | none => rfl
      | some p => rw [hf] at h2; simp at h2
    have hup : g.updNode m f = { g with nodes := g.nodes ++ [(m, f {})] } := by
      unfold Graph.updNode
      rw [if_neg hm]
    rw [hup]
    simp only [Graph.nodeData]
    rw [List.find?_append]
    by_cases hnm : n = m
    · subst hnm
      rw [hnone]
      simp
    · have hlast : List.find? (fun p => p.1 == n) [(m, f {})] = none := by
        simp [Ne.symm hnm]
      rw [hlast]
      simp [hnm]

lemma hasNode_updNode (g : Graph) (m : String) (f : NodeData → NodeData) (n : String) :
    (g.updNode m f).hasNode n = (g.hasNode n || n == m) := by
  rw [hasNode_eq_isSome, hasNode_eq_isSome, nodeData_updNode]
  by_cases hnm : n = m
  · subst hnm
    simp
  · simp [hnm, beq_eq_false_iff_ne.mpr hnm]

lemma edges_updNode (g : Graph) (m : String) (f : NodeData → NodeData) :
    (g.updNode m f).edges = g.edges := by
  unfold Graph.updNode
  split <;> rfl

lemma degree_updNode (g : Graph) (m : String) (f : NodeData → NodeData) (n : String) :
    (g.updNode m f).degree n = g.degree n := by
  unfold Graph.degree
  rw [edges_updNode]

lemma ensureNode_eq_updNode (g : Graph) (n : String) : g.ensureNode n = g.updNode n id := by
  unfold Graph.ensureNode Graph.updNode
  split
  · have hid : (fun (p : String × NodeData) => if p.1 == n then (p.1, id p.2) else p) = id := by
      funext p
      split <;> rfl
    rw [hid, List.map_id]
  · rfl

lemma mem_updNode (g : Graph) (m : String) (f : NodeData → NodeData)
    (p' : String × NodeData) (h : p' ∈ (g.updNode m f).nodes) :
    (∃ p, p ∈ g.nodes ∧ p' = p ∧ p.1 ≠ m) ∨
    (∃ p, p ∈ g.nodes ∧ p.1 = m ∧ p' = (p.1, f p.2)) ∨ p' = (m, f {}) := by
  unfold Graph.updNode at h
  by_cases hm : g.hasNode m = true
  · rw [if_pos hm] at h
    obtain ⟨p, hp, hpe⟩ := List.mem_map.mp h
    by_cases hpm : p.1 = m
    · right; left
      exact ⟨p, hp, hpm, by rw [← hpe]; simp [beq_iff_eq.mpr hpm]⟩
    · left
      refine ⟨p, hp, by rw [← hpe]; simp [beq_eq_false_iff_ne.mpr hpm], hpm⟩
  · rw [if_neg hm] at h
    rcases List.mem_append.mp h with h1 | h1
    · left
      refine ⟨p', h1, rfl, fun hpm => hm ?_⟩
      unfold Graph.hasNode
      exact List.any_eq_true.mpr ⟨p', h1, beq_iff_eq.mpr hpm⟩
    · right; right; simpa using h1

lemma mem_ensureNode (g : Graph) (m : String) (p' : String × NodeData)
    (h : p' ∈ (g.ensureNode m).nodes) : p' ∈ g.nodes ∨ p' = (m, ({} : NodeData)) := by
  unfold Graph.ensureNode at h
  by_cases hm : g.hasNode m = true
  · rw [if_pos hm] at h
    exact Or.inl h
  · rw [if_neg hm] at h
    rcases List.mem_append.mp h with h1 | h1
    · exact Or.inl h1
    · exact Or.inr (by simpa using h1)

lemma edges_ensureNode (g : Graph) (n : String) : (g.ensureNode n).edges = g.edges := by
  rw [ensureNode_eq_updNode, edges_updNode]

lemma nodes_addEdge (g : Graph) (a b : String) (lin : Bool) (c : Option ℚ) :
    (g.addEdge a b lin c).nodes = ((g.ensureNode a).ensureNode b).nodes := by
  simp only [Graph.addEdge]
  split <;> rfl

lemma edges_addEdge (g : Graph) (a b : String) (lin : Bool) (c : Option ℚ) :
    (g.addEdge a b lin c).edges =
      if g.edges.any (fun e => e.joins a b) then
        g.edges.map (fun e => if e.joins a b then e.updatedBy lin c else e)
      else g.edges ++ [{ u := a, v := b, is_linear := some lin, coeff := c }] := by
  simp only [Graph.addEdge, edges_ensureNode]
  split <;> rfl

lemma edgeUpd_u (lin : Bool) (c : Option ℚ) (a b : String) (e : Edge) :
    ((if e.joins a b then e.updatedBy lin c else e) : Edge).u = e.u := by
  split <;> rfl

lemma edgeUpd_v (lin : Bool) (c : Option ℚ) (a b : String) (e : Edge) :
    ((if e.joins a b then e.updatedBy lin c else e) : Edge).v = e.v := by
  split <;> rfl

lemma countP_map_edgeUpd (l : List Edge) (a b : String) (lin : Bool) (c : Option ℚ)
    (p : Edge → Bool)
    (hp : ∀ e : Edge, p (if e.joins a b then e.updatedBy lin c else e) = p e) :
    (l.map (fun e => if e.joins a b then e.updatedBy lin c else e)).countP p
      = l.countP p := by
  rw [List.countP_map]
  exact List.countP_congr (fun e _ => by rw [Function.comp_apply, hp])

lemma edgeUpd_joins (lin : Bool) (c : Option ℚ) (a b x y : String) (e : Edge) :
    ((if e.joins a b then e.updatedBy lin c else e) : Edge).joins x y
      = e.joins x y := by
  split <;> rfl

lemma degree_addEdge_mono (g : Graph) (a b : String) (lin : Bool) (c : Option ℚ)
    (n : String) : g.degree n ≤ (g.addEdge a b lin c).degree n := by
  unfold Graph.degree
  rw [edges_addEdge]
  split
  · rw [countP_map_edgeUpd _ _ _ _ _ _ (fun e => by rw [edgeUpd_u]),
        countP_map_edgeUpd _ _ _ _ _ _ (fun e => by rw [edgeUpd_v])]
  · rw [List.countP_append, List.countP_append]
    omega

lemma one_le_degree_addEdge_fst (g : Graph) (a b : String) (lin : Bool) (c : Option ℚ) :
    1 ≤ (g.addEdge a b lin c).degree a := by
  unfold Graph.degree
  rw [edges_addEdge]
  split
  · next h =>
    obtain ⟨e, he, hj⟩ := List.any_eq_true.mp h
    rw [countP_map_edgeUpd _ _ _ _ _ _ (fun e => by rw [edgeUpd_u]),
        countP_map_edgeUpd _ _ _ _ _ _ (fun e => by rw [edgeUpd_v])]
    simp only [Edge.joins, Bool.or_eq_true, Bool.and_eq_true, beq_iff_eq] at hj
    rcases hj with ⟨h1, _⟩ | ⟨_, h2⟩
    · have : 0 < g.edges.countP (fun e => e.u == a) :=
        List.countP_pos_iff.mpr ⟨e, he, beq_iff_eq.mpr h1⟩
      omega
    · have : 0 < g.edges.countP (fun e => e.v == a) :=
        List.countP_pos_iff.mpr ⟨e, he, beq_iff_eq.mpr h2⟩
      omega
  · rw [List.countP_append, List.countP_append]
    have : 0 < List.countP (fun e => e.u == a)
        [({ u := a, v := b, is_linear := some lin, coeff := c } : Edge)] := by
      simp [List.countP_cons]
    omega

lemma one_le_degree_addEdge_snd (g : Graph) (a b : String) (lin : Bool) (c : Option ℚ) :
    1 ≤ (g.addEdge a b lin c).degree b := by
  unfold Graph.degree
  rw [edges_addEdge]
  split
  · next h =>
    obtain ⟨e, he, hj⟩ := List.any_eq_true.mp h
    rw [countP_map_edgeUpd _ _ _ _ _ _ (fun e => by rw [edgeUpd_u]),
        countP_map_edgeUpd _ _ _ _ _ _ (fun e => by rw [edgeUpd_v])]
    simp only [Edge.joins, Bool.or_eq_true, Bool.and_eq_true, beq_iff_eq] at hj
    rcases hj with ⟨_, h2⟩ | ⟨h1, _⟩
    · have : 0 < g.edges.countP (fun e => e.v == b) :=
        List.countP_pos_iff.mpr ⟨e, he, beq_iff_eq.mpr h2⟩
      omega
    · have : 0 < g.edges.countP (fun e => e.u == b) :=
        List.countP_pos_iff.mpr ⟨e, he, beq_iff_eq.mpr h1⟩
      omega
  · rw [List.countP_append, List.countP_append]
    have : 0 < List.countP (fun e => e.v == b)
        [({ u := a, v := b, is_linear := some lin, coeff := c } : Edge)] := by
      simp [List.countP_cons]
    omega

lemma foldl_preserve {α β : Type} (P : α → Prop) (f : α → β → α) (l : List β)
    (h : ∀ s b, b ∈ l → P s → P (f s b)) (s : α) (hs : P s) : P (l.foldl f s) := by
  induction l generalizing s with
  | nil => exact hs
  | cons b bs ih =>
    rw [List.foldl_cons]
    exact ih (fun s x hx => h s x (List.mem_cons_of_mem _ hx)) _
      (h s b (List.mem_cons_self _ _) hs)

lemma foldlM_except_preserve {σ β : Type} (P : σ → Prop) (f : σ → β → Except String σ)
    (l : List β) (s s' : σ)
    (h : ∀ a b r, b ∈ l → f a b = .ok r → P a → P r)
    (hs : P s) (hr : l.foldlM f s = .ok s') : P s' := by
  induction l generalizing s with
  | nil =>
    have hss : s = s' := by
      have hr2 : (Except.ok s : Except String σ) = .ok s' := hr
      exact (Except.ok.injEq _ _).mp hr2
    exact hss ▸ hs
  | cons b bs ih =>
    rw [List.foldlM_cons] at hr
    cases hf : f s b with
    | error e =>
      rw [hf] at hr
      exact absurd (show (Except.error e : Except String σ) = .ok s' from hr)
        (by simp)
    | ok t =>
      rw [hf] at hr
      exact ih t (fun a x r hx => h a x r (List.mem_cons_of_mem _ hx))
        (h s b t (List.mem_cons_self _ _) hf hs) hr

lemma foldlM_except_error_of_mem {σ β : Type} (f : σ → β → Except String σ)
    (l : List β) (b : β) (hb : b ∈ l)
    (herr : ∀ s, ∃ e, f s b = .error e) :
    ∀ s, ∃ e, l.foldlM f s = .error e := by
  induction l with
  | nil => cases hb
  | cons a as ih =>
    intro s
    rcases List.mem_cons.mp hb with hba | hba
    · subst hba
      obtain ⟨e, he⟩ := herr s
      refine ⟨e, ?_⟩
      rw [List.foldlM_cons, he]
      rfl
    · cases hf : f s a with
      | error e =>
        refine ⟨e, ?_⟩
        rw [List.foldlM_cons, hf]
        rfl
      | ok t =>
        obtain ⟨e, he⟩ := ih hba t
        refine ⟨e, ?_⟩
        rw [List.foldlM_cons, hf]
        exact he

/-! ### At most one edge per unordered pair -/

/-- Every unordered node pair carries at most one edge. -/
def uniqueEdges (g : Graph) : Prop :=
  ∀ a b : String, g.edges.countP (fun e => e.joins a b) ≤ 1

lemma joins_congr_of_pair (a b x y : String)
    (h : (x = a ∧ y = b) ∨ (x = b ∧ y = a)) (f : Edge) :
    f.joins x y = f.joins a b := by
  rcases h with ⟨h1, h2⟩ | ⟨h1, h2⟩
  · rw [h1, h2]
  · rw [h1, h2]
    simp only [Edge.joins]
    rw [Bool.or_comm]

lemma joins_pair_cases (e : Edge) (a b x y : String)
    (hab : e.joins a b = true) (hxy : e.joins x y = true) :
    (x = a ∧ y = b) ∨ (x = b ∧ y = a) := by
  simp only [Edge.joins, Bool.or_eq_true, Bool.and_eq_true, beq_iff_eq] at hab hxy
  rcases hab with ⟨ha, hb⟩ | ⟨ha, hb⟩ <;> rcases hxy with ⟨hx, hy⟩ | ⟨hx, hy⟩
  · exact Or.inl ⟨hx.symm.trans ha, hy.symm.trans hb⟩
  · exact Or.inr ⟨hy.symm.trans hb, hx.symm.trans ha⟩
  · exact Or.inr ⟨hx.symm.trans ha, hy.symm.trans hb⟩
  · exact Or.inl ⟨hy.symm.trans hb, hx.symm.trans ha⟩

lemma uniqueEdges_updNode (g : Graph) (m : String) (f : NodeData → NodeData)
    (h : uniqueEdges g) : uniqueEdges (g.updNode m f) := by
  intro a b
  unfold uniqueEdges at h
  rw [edges_updNode]
  exact h a b

lemma uniqueEdges_addEdge (g : Graph) (a b : String) (lin : Bool) (c : Option ℚ)
    (h : uniqueEdges g) : uniqueEdges (g.addEdge a b lin c) := by
  intro x y
  rw [edges_addEdge]
  split
  · rw [countP_map_edgeUpd _ _ _ _ _ _ (fun e => edgeUpd_joins lin c a b x y e)]
    exact h x y
  · next hany =>
    rw [List.countP_append]
    by_cases hj : (({ u := a, v := b, is_linear := some lin, coeff := c } : Edge).joins x y) = true
    · have hpair : (x = a ∧ y = b) ∨ (x = b ∧ y = a) := by
        refine joins_pair_cases { u := a, v := b, is_linear := some lin, coeff := c } a b x y ?_ hj
        simp [Edge.joins]
      have hz : g.edges.countP (fun e => e.joins x y) = 0 := by
        rw [List.countP_eq_zero]
        intro e he hexy
        have hejab : e.joins a b = true := by
          rw [← joins_congr_of_pair a b x y hpair e]
          exact hexy
        exact hany (List.any_eq_true.mpr ⟨e, he, hejab⟩)
      rw [hz]
      simp [List.countP_cons, hj]
    · have : List.countP (fun e => e.joins x y)
          [({ u := a, v := b, is_linear := some lin, coeff := c } : Edge)] = 0 := by
        simp [List.countP_cons, hj]
      rw [this]
      simpa using h x y

/-! ### Last-write-wins for edge coefficients -/

/-- The coefficient of the last term of `ts` whose variable is named `n`
(`None` when no term mentions `n`). -/
def lastMention (ts : List Term) (n : String) : Option ℚ :=
  ts.foldl (fun acc t =>
    match t.var with
    | some v => if v.name == n then some t.coeff else acc
    | none => acc) none

lemma lastMention_foldl (n : String) (ts : List Term) (acc : Option ℚ) :
    ts.foldl (fun acc t =>
      match t.var with
      | some v => if v.name == n then some t.coeff else acc
      | none => acc) acc
    = match lastMention ts n with | some q => some q | none => acc := by
  induction ts generalizing acc with
  | nil => rfl
  | cons t ts ih =>
    rw [List.foldl_cons]
    rw [ih]
    have hcons : lastMention (t :: ts) n
        = match lastMention ts n with
          | some q => some q
          | none => (match t.var with
            | some v => if v.name == n then some t.coeff else none
            | none => none) := by
      unfold lastMention
      rw [List.foldl_cons, ih]
      rfl
    rw [hcons]
    cases hl : lastMention ts n with
    | some q => rfl
    | none =>
      cases ht : t.var with
      | none => rfl
      | some v =>
        by_cases hv : (v.name == n) = true
        · simp [ht, hv]
        · have hv2 : (v.name == n) = false := by simpa using hv
          simp [ht, hv2]

lemma edgeCoeff_addEdge_same (g : Graph) (a b : String) (lin : Bool) (x : ℚ) :
    edgeCoeff (g.addEdge a b lin (some x)) a b = some x := by
  unfold edgeCoeff
  rw [edges_addEdge]
  split
  · next hany =>
    rw [List.find?_map]
    have hpred : ((fun (e : Edge) => e.joins a b) ∘
        (fun (e : Edge) => if e.joins a b then e.updatedBy lin (some x) else e))
        = (fun (e : Edge) => e.joins a b) := by
      funext e
      rw [Function.comp_apply, edgeUpd_joins]
    rw [hpred]
    obtain ⟨e, he, hj⟩ := List.any_eq_true.mp hany
    have hsome : (g.edges.find? (fun e => e.joins a b)).isSome := by
      rw [List.find?_isSome]
      exact ⟨e, he, hj⟩
    obtain ⟨e0, he0⟩ := Option.isSome_iff_exists.mp hsome
    rw [he0]
    have hj0 : e0.joins a b = true := by simpa using List.find?_some he0
    simp [hj0, Edge.updatedBy]
  · next hany =>
    rw [List.find?_append]
    have hnone : g.edges.find? (fun e => e.joins a b) = none := by
      rw [List.find?_eq_none]
      intro e he hj
      exact hany (List.any_eq_true.mpr ⟨e, he, hj⟩)
    rw [hnone]
    simp [Edge.joins]

lemma edgeCoeff_addEdge_other (g : Graph) (a b x y : String) (lin : Bool) (c : Option ℚ)
    (hpair : ¬ ((x = a ∧ y = b) ∨ (x = b ∧ y = a))) :
    edgeCoeff (g.addEdge a b lin c) x y = edgeCoeff g x y := by
  unfold edgeCoeff
  rw [edges_addEdge]
  split
  · rw [List.find?_map]
    have hpred : ((fun (e : Edge) => e.joins x y) ∘
        (fun (e : Edge) => if e.joins a b then e.updatedBy lin c else e))
        = (fun (e : Edge) => e.joins x y) := by
      funext e
      rw [Function.comp_apply, edgeUpd_joins]
    rw [hpred]
    cases hf : g.edges.find? (fun e => e.joins x y) with
    | none => rfl
    | some e0 =>
      have hj0 : e0.joins x y = true := by simpa using List.find?_some hf
      have hnab : e0.joins a b = false := by
        by_contra hc
        exact hpair (joins_pair_cases e0 a b x y
          (Bool.not_eq_false _ ▸ hc) hj0)
      simp [hnab]
  · rw [List.find?_append]
    have hnewnot : (({ u := a, v := b, is_linear := some lin, coeff := c } : Edge).joins x y)
        = false := by
      by_contra hc
      have hj : (({ u := a, v := b, is_linear := some lin, coeff := c } : Edge).joins x y)
          = true := Bool.not_eq_false _ ▸ hc
      refine hpair (joins_pair_cases _ a b x y ?_ hj)
      simp [Edge.joins]
    cases hf : g.edges.find? (fun e => e.joins x y) with
    | none => simp [hnewnot]
    | some e0 => simp

lemma edgeCoeff_updNode (g : Graph) (m : String) (f : NodeData → NodeData)
    (a b : String) : edgeCoeff (g.updNode m f) a b = edgeCoeff g a b := by
  unfold edgeCoeff
  rw [edges_updNode]

lemma edgeCoeff_addVarNode (g : Graph) (n : String) (dom : Domain) (a b : String) :
    edgeCoeff (g.addVarNode n dom) a b = edgeCoeff g a b := by
  unfold Graph.addVarNode
  rw [edgeCoeff_updNode]

lemma edgeCoeff_addConstrNode (g : Graph) (n kind okind : String) (lin : Bool)
    (a b : String) : edgeCoeff (g.addConstrNode n kind okind lin) a b = edgeCoeff g a b := by
  unfold Graph.addConstrNode
  rw [edgeCoeff_updNode]

lemma edgeCoeff_setBound (g : Graph) (n : String) (q : ℚ) (a b : String) :
    edgeCoeff (g.setBound n q) a b = edgeCoeff g a b := by
  unfold Graph.setBound
  rw [edgeCoeff_updNode]

lemma builder_split (m : Model) (g : Graph)
    (h : get_variable_constraint_graph m = .ok g) :
    ∃ g0, m.constraints.foldlM processConstraint Graph.empty = .ok g0 ∧
      objectivePass m g0 = .ok g := by
  unfold get_variable_constraint_graph at h
  cases hf : m.constraints.foldlM processConstraint Graph.empty with
  | error e =>
    rw [hf] at h
    exact absurd (show (Except.error e : Except String Graph) = .ok g from h) (by simp)
  | ok g0 =>
    rw [hf] at h
    exact ⟨g0, rfl, h⟩

lemma edgeCoeff_linFold (cname : String) (mult : ℚ) (vn : String) (hvn : vn ≠ cname)
    (ts : List Term) (st : Graph × ℚ) :
    edgeCoeff (ts.foldl (linStep cname mult) st).1 cname vn
      = match lastMention ts vn with
        | some q => some q
        | none => edgeCoeff st.1 cname vn := by
  induction ts generalizing st with
  | nil => rfl
  | cons t ts ih =>
    rw [List.foldl_cons, ih]
    have hstep : edgeCoeff (linStep cname mult st t).1 cname vn
        = match t.var with
          | some v => if v.name == vn then some t.coeff else edgeCoeff st.1 cname vn
          | none => edgeCoeff st.1 cname vn := by
      cases ht : t.var with
      | none => simp [linStep, ht]
      | some v =>
        simp only [linStep, ht]
        by_cases hv : v.name = vn
        · subst hv
          rw [edgeCoeff_addEdge_same]
          simp
        · rw [edgeCoeff_addEdge_other]
          · rw [edgeCoeff_addVarNode]
            simp [hv]
          · rintro (⟨-, h2⟩ | ⟨-, h2⟩)
            · exact hv h2.symm
            · exact hvn h2
    have hcons : lastMention (t :: ts) vn
        = match lastMention ts vn with
          | some q => some q
          | none => (match t.var with
            | some v => if v.name == vn then some t.coeff else none
            | none => none) := by
      unfold lastMention
      rw [List.foldl_cons, lastMention_foldl]
      rfl
    rw [hcons, hstep]
    cases hl : lastMention ts vn with
    | some q => rfl
    | none =>
      cases ht : t.var with
      | none => rfl
      | some v =>
        by_cases hv : (v.name == vn) = true
        · simp [hv]
        · have hv2 : (v.name == vn) = false := by simpa using hv
          simp [hv2]

lemma edgeCoeff_processConstraint (g : Graph) (c : Constr) (g' : Graph)
    (ts : List Term) (vn : String) (h : processConstraint g c = .ok g')
    (hb : c.body = some ts) (hvn : vn ≠ c.name) :
    edgeCoeff g' c.name vn
      = match lastMention ts vn with
        | some q => some q
        | none => edgeCoeff g c.name vn := by
  unfold processConstraint at h
  cases hnb : normalizeBounds c with
  | error e =>
    rw [hnb] at h
    exact absurd h (by simp)
  | ok r =>
    obtain ⟨mult, b0, kind, okind⟩ := r
    rw [hnb, hb] at h
    simp only [Except.ok.injEq] at h
    rw [← h]
    rw [edgeCoeff_setBound]
    rw [edgeCoeff_linFold c.name mult vn hvn ts]
    rw [edgeCoeff_addConstrNode]

lemma uniqueEdges_empty : uniqueEdges Graph.empty := by
  intro a b
  simp [Graph.empty]

lemma uniqueEdges_linStep (cname : String) (mult : ℚ) (st : Graph × ℚ) (t : Term)
    (h : uniqueEdges st.1) : uniqueEdges (linStep cname mult st t).1 := by
  cases ht : t.var with
  | none => simpa [linStep, ht] using h
  | some v =>
    simp only [linStep, ht]
    exact uniqueEdges_addEdge _ _ _ _ _ (uniqueEdges_updNode _ _ _ h)

lemma uniqueEdges_nonlinStep (cname : String) (g : Graph) (v : PyVar)
    (h : uniqueEdges g) : uniqueEdges (nonlinStep cname g v) := by
  unfold nonlinStep
  exact uniqueEdges_addEdge _ _ _ _ _ (uniqueEdges_updNode _ _ _ h)

lemma uniqueEdges_processConstraint (g : Graph) (c : Constr) (g' : Graph)
    (h : processConstraint g c = .ok g') (hg : uniqueEdges g) : uniqueEdges g' := by
  unfold processConstraint at h
  cases hnb : normalizeBounds c with
  | error e =>
    rw [hnb] at h
    exact absurd h (by simp)
  | ok r =>
    obtain ⟨mult, b0, kind, okind⟩ := r
    rw [hnb] at h
    cases hb : c.body with
    | none =>
      rw [hb] at h
      simp only [Except.ok.injEq] at h
      rw [← h]
      refine uniqueEdges_updNode _ _ _ ?_
      refine foldl_preserve uniqueEdges (nonlinStep c.name) c.bodyVars
        (fun s v _ hs => uniqueEdges_nonlinStep c.name s v hs) _ ?_
      exact uniqueEdges_updNode _ _ _ hg
    | some ts =>
      rw [hb] at h
      simp only [Except.ok.injEq] at h
      rw [← h]
      refine uniqueEdges_updNode _ _ _ ?_
      refine foldl_preserve (fun (st : Graph × ℚ) => uniqueEdges st.1)
        (linStep c.name mult) ts
        (fun s t _ hs => uniqueEdges_linStep c.name mult s t hs) _ ?_
      exact uniqueEdges_updNode _ _ _ hg

lemma uniqueEdges_objStep (sense : Sense) (g : Graph) (t : Term) (g' : Graph)
    (h : objStep sense g t = .ok g') (hg : uniqueEdges g) : uniqueEdges g' := by
  unfold objStep at h
  cases ht : t.var with
  | none =>
    rw [ht] at h
    simp only [Except.ok.injEq] at h
    exact h ▸ hg
  | some v =>
    rw [ht] at h
    by_cases hn : g.hasNode v.name = true
    · simp only [hn, if_true, Except.ok.injEq] at h
      rw [← h]
      exact uniqueEdges_updNode _ _ _ hg
    · simp [hn] at h

lemma uniqueEdges_builder (m : Model) (g : Graph)
    (h : get_variable_constraint_graph m = .ok g) : uniqueEdges g := by
  obtain ⟨g0, hf, ho⟩ := builder_split m g h
  have hg0 : uniqueEdges g0 :=
    foldlM_except_preserve uniqueEdges processConstraint m.constraints Graph.empty g0
      (fun a c r _ hr ha => uniqueEdges_processConstraint a c r hr ha)
      uniqueEdges_empty hf
  unfold objectivePass at ho
  cases hb : m.objBody with
  | none =>
    rw [hb] at ho
    simp only [Except.ok.injEq] at ho
    exact ho ▸ hg0
  | some ts =>
    rw [hb] at ho
    exact foldlM_except_preserve uniqueEdges (objStep m.objSense) ts g0 g
      (fun a t r _ hr ha => uniqueEdges_objStep m.objSense a t r hr ha)
      hg0 ho

/-! ### No isolated variable nodes -/

/-- Every node tagged `type="variable"` has degree at least 1. -/
def varDegOK (g : Graph) : Prop :=
  ∀ p ∈ g.nodes, p.2.type = some "variable" → 1 ≤ g.degree p.1

lemma varDegOK_empty : varDegOK Graph.empty := by
  intro p hp
  cases hp

lemma varDegOK_updNode_typePreserving (g : Graph) (m : String) (f : NodeData → NodeData)
    (hf : ∀ d, (f d).type = d.type) (h : varDegOK g) : varDegOK (g.updNode m f) := by
  intro p hp htype
  rw [degree_updNode]
  rcases mem_updNode g m f p hp with ⟨q, hq, hpq, -⟩ | ⟨q, hq, -, hpq⟩ | hpq
  · exact hpq ▸ h q hq (hpq ▸ htype)
  · subst hpq
    exact h q hq (by rw [← hf q.2]; exact htype)
  · subst hpq
    rw [hf] at htype
    cases htype

lemma varDegOK_addConstrNode (g : Graph) (n kind okind : String) (lin : Bool)
    (h : varDegOK g) : varDegOK (g.addConstrNode n kind okind lin) := by
  intro p hp htype
  unfold Graph.addConstrNode at hp ⊢
  rw [degree_updNode]
  rcases mem_updNode g n _ p hp with ⟨q, hq, hpq, -⟩ | ⟨q, hq, -, hpq⟩ | hpq
  · exact hpq ▸ h q hq (hpq ▸ htype)
  · subst hpq
    exact absurd (show (some "constraint" : Option String) = some "variable" from htype)
      (by decide)
  · subst hpq
    exact absurd (show (some "constraint" : Option String) = some "variable" from htype)
      (by decide)

lemma varDegOK_setBound (g : Graph) (n : String) (q : ℚ) (h : varDegOK g) :
    varDegOK (g.setBound n q) := by
  unfold Graph.setBound
  exact varDegOK_updNode_typePreserving g n _ (fun d => rfl) h

lemma varDegOK_setObjCoeff (g : Graph) (n : String) (c : ℚ) (h : varDegOK g) :
    varDegOK (g.setObjCoeff n c) := by
  unfold Graph.setObjCoeff
  exact varDegOK_updNode_typePreserving g n _ (fun d => rfl) h

lemma degree_ensureNode (g : Graph) (m n : String) :
    (g.ensureNode m).degree n = g.degree n := by
  rw [ensureNode_eq_updNode, degree_updNode]

lemma varDegOK_varEdgeStep (g : Graph) (cname vn : String) (dom : Domain)
    (lin : Bool) (c : Option ℚ) (h : varDegOK g) :
    varDegOK ((g.addVarNode vn dom).addEdge cname vn lin c) := by
  intro p hp htype
  have hnodes := hp
  rw [nodes_addEdge] at hnodes
  by_cases hpv : p.1 = vn
  · rw [hpv]
    exact one_le_degree_addEdge_snd _ _ _ _ _
  · by_cases hpc : p.1 = cname
    · rw [hpc]
      exact one_le_degree_addEdge_fst _ _ _ _ _
    · rcases mem_ensureNode _ _ _ hnodes with h1 | h1
      · rcases mem_ensureNode _ _ _ h1 with h2 | h2
        · unfold Graph.addVarNode at h2
          rcases mem_updNode g vn _ p h2 with ⟨q, hq, hpq, -⟩ | ⟨q, hq, hqv, hpq⟩ | hpq
          · subst hpq
            calc 1 ≤ g.degree p.1 := h p hq htype
            _ ≤ ((g.addVarNode vn dom).addEdge cname vn lin c).degree p.1 := by
                have hmono := degree_addEdge_mono (g.addVarNode vn dom) cname vn lin c p.1
                unfold Graph.addVarNode at hmono
                rw [degree_updNode] at hmono
                exact hmono
          · exact absurd (hpq ▸ rfl : p.1 = q.1) (by rw [hqv]; exact hpv)
          · exact absurd (hpq ▸ rfl : p.1 = vn) hpv
        · exact absurd (h2 ▸ rfl : p.1 = cname) hpc
      · exact absurd (h1 ▸ rfl : p.1 = vn) hpv

lemma varDegOK_nonlinStep (cname : String) (g : Graph) (v : PyVar)
    (h : varDegOK g) : varDegOK (nonlinStep cname g v) :=
  varDegOK_varEdgeStep g cname v.name v.domain false none h

lemma varDegOK_linStep (cname : String) (mult : ℚ) (st : Graph × ℚ) (t : Term)
    (h : varDegOK st.1) : varDegOK (linStep cname mult st t).1 := by
  cases ht : t.var with
  | none => simpa [linStep, ht] using h
  | some v =>
    simp only [linStep, ht]
    exact varDegOK_varEdgeStep st.1 cname v.name v.domain true (some t.coeff) h

lemma varDegOK_processConstraint (g : Graph) (c : Constr) (g' : Graph)
    (h : processConstraint g c = .ok g') (hg : varDegOK g) : varDegOK g' := by
  unfold processConstraint at h
  cases hnb : normalizeBounds c with
  | error e =>
    rw [hnb] at h
    exact absurd h (by simp)
  | ok r =>
    obtain ⟨mult, b0, kind, okind⟩ := r
    rw [hnb] at h
    cases hb : c.body with
    | none =>
      rw [hb] at h
      simp only [Except.ok.injEq] at h
      rw [← h]
      refine varDegOK_setBound _ _ _ ?_
      refine foldl_preserve varDegOK (nonlinStep c.name) c.bodyVars
        (fun s v _ hs => varDegOK_nonlinStep c.name s v hs) _ ?_
      exact varDegOK_addConstrNode g c.name kind okind _ hg
    | some ts =>
      rw [hb] at h
      simp only [Except.ok.injEq] at h
      rw [← h]
      refine varDegOK_setBound _ _ _ ?_
      refine foldl_preserve (fun (st : Graph × ℚ) => varDegOK st.1)
        (linStep c.name mult) ts
        (fun s t _ hs => varDegOK_linStep c.name mult s t hs) _ ?_
      exact varDegOK_addConstrNode g c.name kind okind _ hg

lemma varDegOK_objStep (sense : Sense) (g : Graph) (t : Term) (g' : Graph)
    (h : objStep sense g t = .ok g') (hg : varDegOK g) : varDegOK g' := by
  unfold objStep at h
  cases ht : t.var with
  | none =>
    rw [ht] at h
    simp only [Except.ok.injEq] at h
    exact h ▸ hg
  | some v =>
    rw [ht] at h
    by_cases hn : g.hasNode v.name = true
    · simp only [hn, if_true, Except.ok.injEq] at h
      rw [← h]
      exact varDegOK_setObjCoeff _ _ _ hg
    · simp [hn] at h

lemma varDegOK_builder (m : Model) (g : Graph)
    (h : get_variable_constraint_graph m = .ok g) : varDegOK g := by
  obtain ⟨g0, hf, ho⟩ := builder_split m g h
  have hg0 : varDegOK g0 :=
    foldlM_except_preserve varDegOK processConstraint m.constraints Graph.empty g0
      (fun a c r _ hr ha => varDegOK_processConstraint a c r hr ha)
      varDegOK_empty hf
  unfold objectivePass at ho
  cases hb : m.objBody with
  | none =>
    rw [hb] at ho
    simp only [Except.ok.injEq] at ho
    exact ho ▸ hg0
  | some ts =>
    rw [hb] at ho
    exact foldlM_except_preserve varDegOK (objStep m.objSense) ts g0 g
      (fun a t r _ hr ha => varDegOK_objStep m.objSense a t r hr ha)
      hg0 ho

/-! ### Objective-coefficient tagging -/

/-- The `obj_coeff` attribute of node `n` (read through the node lookup). -/
def objCoeffOf (g : Graph) (n : String) : Option ℚ :=
  (g.nodeData n).bind (fun d => d.obj_coeff)

/-- No node of the graph carries an `obj_coeff` attribute. -/
def noObjCoeff (g : Graph) : Prop :=
  ∀ n d, g.nodeData n = some d → d.obj_coeff = none

lemma noObjCoeff_empty : noObjCoeff Graph.empty := by
  intro n d hd
  cases hd

lemma noObjCoeff_updNode (g : Graph) (m : String) (f : NodeData → NodeData)
    (hf : ∀ d, (f d).obj_coeff = d.obj_coeff) (h : noObjCoeff g) :
    noObjCoeff (g.updNode m f) := by
  intro n d hd
  rw [nodeData_updNode] at hd
  by_cases hnm : n = m
  · rw [if_pos hnm] at hd
    have hd2 : d = f ((g.nodeData m).getD {}) := (Option.some.injEq _ _).mp hd.symm
    rw [hd2, hf]
    cases hm : g.nodeData m with
    | none => rfl
    | some d0 => exact h m d0 hm
  · rw [if_neg hnm] at hd
    exact h n d hd

lemma nodeData_addEdge (g : Graph) (a b : String) (lin : Bool) (c : Option ℚ)
    (n : String) :
    (g.addEdge a b lin c).nodeData n = ((g.ensureNode a).ensureNode b).nodeData n := by
  unfold Graph.nodeData
  rw [nodes_addEdge]

lemma noObjCoeff_addEdge (g : Graph) (a b : String) (lin : Bool) (c : Option ℚ)
    (h : noObjCoeff g) : noObjCoeff (g.addEdge a b lin c) := by
  intro n d hd
  rw [nodeData_addEdge] at hd
  have h1 : noObjCoeff (g.ensureNode a) := by
    rw [ensureNode_eq_updNode]
    exact noObjCoeff_updNode g a id (fun d => rfl) h
  have h2 : noObjCoeff ((g.ensureNode a).ensureNode b) := by
    rw [ensureNode_eq_updNode]
    exact noObjCoeff_updNode _ b id (fun d => rfl) h1
  exact h2 n d hd

lemma noObjCoeff_nonlinStep (cname : String) (g : Graph) (v : PyVar)
    (h : noObjCoeff g) : noObjCoeff (nonlinStep cname g v) := by
  unfold nonlinStep Graph.addVarNode
  exact noObjCoeff_addEdge _ _ _ _ _ (noObjCoeff_updNode _ _ _ (fun d => rfl) h)

lemma noObjCoeff_linStep (cname : String) (mult : ℚ) (st : Graph × ℚ) (t : Term)
    (h : noObjCoeff st.1) : noObjCoeff (linStep cname mult st t).1 := by
  cases ht : t.var with
  | none => simpa [linStep, ht] using h
  | some v =>
    simp only [linStep, ht]
    unfold Graph.addVarNode
    exact noObjCoeff_addEdge _ _ _ _ _ (noObjCoeff_updNode _ _ _ (fun d => rfl) h)

lemma noObjCoeff_processConstraint (g : Graph) (c : Constr) (g' : Graph)
    (h : processConstraint g c = .ok g') (hg : noObjCoeff g) : noObjCoeff g' := by
  unfold processConstraint at h
  cases hnb : normalizeBounds c with
  | error e =>
    rw [hnb] at h
    exact absurd h (by simp)
  | ok r =>
    obtain ⟨mult, b0, kind, okind⟩ := r
    rw [hnb] at h
    cases hb : c.body with
    | none =>
      rw [hb] at h
      simp only [Except.ok.injEq] at h
      rw [← h]
      unfold Graph.setBound
      refine noObjCoeff_updNode _ _ _ (fun d => rfl) ?_
      refine foldl_preserve noObjCoeff (nonlinStep c.name) c.bodyVars
        (fun s v _ hs => noObjCoeff_nonlinStep c.name s v hs) _ ?_
      unfold Graph.addConstrNode
      exact noObjCoeff_updNode _ _ _ (fun d => rfl) hg
    | some ts =>
      rw [hb] at h
      simp only [Except.ok.injEq] at h
      rw [← h]
      unfold Graph.setBound
      refine noObjCoeff_updNode _ _ _ (fun d => rfl) ?_
      refine foldl_preserve (fun (st : Graph × ℚ) => noObjCoeff st.1)
        (linStep c.name mult) ts
        (fun s t _ hs => noObjCoeff_linStep c.name mult s t hs) _ ?_
      unfold Graph.addConstrNode
      exact noObjCoeff_updNode _ _ _ (fun d => rfl) hg

lemma noObjCoeff_constraintFold (m : Model) (g0 : Graph)
    (hf : m.constraints.foldlM processConstraint Graph.empty = .ok g0) :
    noObjCoeff g0 :=
  foldlM_except_preserve noObjCoeff processConstraint m.constraints Graph.empty g0
    (fun a c r _ hr ha => noObjCoeff_processConstraint a c r hr ha)
    noObjCoeff_empty hf

lemma objCoeffOf_setObjCoeff (g : Graph) (m : String) (c : ℚ) (n : String) :
    objCoeffOf (g.setObjCoeff m c) n = if n = m then some c else objCoeffOf g n := by
  unfold objCoeffOf Graph.setObjCoeff
  rw [nodeData_updNode]
  by_cases hnm : n = m
  · rw [if_pos hnm, if_pos hnm]
    rfl
  · rw [if_neg hnm, if_neg hnm]

lemma objStep_hasNode (sense : Sense) (g : Graph) (t : Term) (g' : Graph)
    (h : objStep sense g t = .ok g') (n : String) : g'.hasNode n = g.hasNode n := by
  unfold objStep at h
  cases ht : t.var with
  | none =>
    rw [ht] at h
    simp only [Except.ok.injEq] at h
    rw [← h]
  | some v =>
    rw [ht] at h
    by_cases hn : g.hasNode v.name = true
    · simp only [hn, if_true, Except.ok.injEq] at h
      rw [← h]
      unfold Graph.setObjCoeff
      rw [hasNode_updNode]
      by_cases hnv : n = v.name
      · subst hnv
        simp [hn]
      · simp [beq_eq_false_iff_ne.mpr hnv]
    · simp [hn] at h

lemma lastMention_cons (t : Term) (ts : List Term) (n : String) :
    lastMention (t :: ts) n
      = match lastMention ts n with
        | some q => some q
        | none => (match t.var with
          | some v => if v.name == n then some t.coeff else none
          | none => none) := by
  unfold lastMention
  rw [List.foldl_cons, lastMention_foldl]
  rfl

lemma objFold_characterize (sense : Sense) (ts : List Term) (g g' : Graph)
    (h : ts.foldlM (objStep sense) g = .ok g') (n : String) :
    objCoeffOf g' n
      = match lastMention ts n with
        | some c => some (c * objMult sense)
        | none => objCoeffOf g n := by
  induction ts generalizing g with
  | nil =>
    have hgg : g = g' := (Except.ok.injEq _ _).mp (h : (Except.ok g : Except String Graph) = .ok g')
    rw [← hgg]
    rfl
  | cons t ts ih =>
    rw [List.foldlM_cons] at h
    cases hstep : objStep sense g t with
    | error e =>
      rw [hstep] at h
      exact absurd (show (Except.error e : Except String Graph) = .ok g' from h) (by simp)
    | ok g1 =>
      rw [hstep] at h
      have hih := ih g1 h
      rw [lastMention_cons]
      have hg1 : objCoeffOf g1 n
          = match t.var with
            | some v => if v.name == n then some (t.coeff * objMult sense) else objCoeffOf g n
            | none => objCoeffOf g n := by
        unfold objStep at hstep
        cases ht : t.var with
        | none =>
          rw [ht] at hstep
          simp only [Except.ok.injEq] at hstep
          rw [← hstep]
        | some v =>
          rw [ht] at hstep
          by_cases hn : g.hasNode v.name = true
          · simp only [hn, if_true, Except.ok.injEq] at hstep
            rw [← hstep, objCoeffOf_setObjCoeff]
            by_cases hnv : n = v.name
            · rw [if_pos hnv]
              simp [beq_iff_eq.mpr hnv.symm]
            · rw [if_neg hnv]
              simp [beq_eq_false_iff_ne.mpr (fun hh => hnv hh.symm)]
          · simp [hn] at hstep
      rw [hih, hg1]
      cases hl : lastMention ts n with
      | some q => rfl
      | none =>
        cases ht : t.var with
        | none => rfl
        | some v =>
          by_cases hv : (v.name == n) = true
          · simp [hv]
          · have hv2 : (v.name == n) = false := by simpa using hv
            simp [hv2]

lemma objFold_ok_of_allPresent (sense : Sense) (ts : List Term) (g : Graph)
    (hall : ∀ t ∈ ts, ∀ v, t.var = some v → g.hasNode v.name = true) :
    ∃ g', ts.foldlM (objStep sense) g = .ok g' := by
  induction ts generalizing g with
  | nil => exact ⟨g, rfl⟩
  | cons t ts ih =>
    cases hstep : objStep sense g t with
    | error e =>
      exfalso
      unfold objStep at hstep
      cases ht : t.var with
      | none => rw [ht] at hstep; cases hstep
      | some v =>
        rw [ht] at hstep
        have hn := hall t (List.mem_cons_self _ _) v ht
        simp [hn] at hstep
    | ok g1 =>
      obtain ⟨g', hg'⟩ := ih g1 (fun t' ht' v hv => by
        rw [objStep_hasNode sense g t g1 hstep]
        exact hall t' (List.mem_cons_of_mem _ ht') v hv)
      refine ⟨g', ?_⟩
      rw [List.foldlM_cons, hstep]
      exact hg'

lemma objFold_error_of_missing (sense : Sense) (ts : List Term) (g : Graph)
    (t0 : Term) (ht0 : t0 ∈ ts) (v0 : PyVar) (hv0 : t0.var = some v0)
    (hmiss : g.hasNode v0.name = false) :
    ∃ e, ts.foldlM (objStep sense) g = .error e := by
  induction ts generalizing g with
  | nil => cases ht0
  | cons t ts ih =>
    rcases List.mem_cons.mp ht0 with hba | hba
    · subst hba
      refine ⟨objVarMsg v0.name, ?_⟩
      rw [List.foldlM_cons]
      have hstep : objStep sense g t0 = .error (objVarMsg v0.name) := by
        unfold objStep
        rw [hv0]
        simp [hmiss]
      rw [hstep]
      rfl
    · cases hstep : objStep sense g t with
      | error e =>
        refine ⟨e, ?_⟩
        rw [List.foldlM_cons, hstep]
        rfl
      | ok g1 =>
        obtain ⟨e, he⟩ := ih g1 hba (by
          rw [objStep_hasNode sense g t g1 hstep]
          exact hmiss)
        refine ⟨e, ?_⟩
        rw [List.foldlM_cons, hstep]
        exact he

/-! ### Expected graphs for the example models -/

/-- The graph the builder produces for `geqModel`. -/
def geqGraph : Graph :=
  { nodes := [("c", { type := some "constraint", kind := some "leq",
                      original_kind := some "geq", is_linear := some true,
                      bound := some (-3) }),
              ("x", { type := some "variable", domain := some Domain.continuous,
                      obj_coeff := some 1 })],
    edges := [{ u := "c", v := "x", is_linear := some true, coeff := some 1 }] }

/-- The graph the builder produces for `degModel`. -/
def degGraph : Graph :=
  { nodes := [("c", { type := some "constraint", kind := some "leq",
                      original_kind := some "leq", is_linear := some true,
                      bound := some 5 }),
              ("x", { type := some "variable", domain := some Domain.continuous,
                      obj_coeff := some 1 }),
              ("y", { type := some "variable", domain := some Domain.continuous })],
    edges := [{ u := "c", v := "x", is_linear := some true, coeff := some 1 },
              { u := "c", v := "y", is_linear := some true, coeff := some 1 }] }

/-- The graph the builder produces for `mixModel`. -/
def mixGraph : Graph :=
  { nodes := [("c", { type := some "constraint", kind := some "leq",
                      original_kind := some "leq", is_linear := some true,
                      bound := some 5 }),
              ("x", { type := some "variable", domain := some Domain.continuous,
                      obj_coeff := some 1 }),
              ("z", { type := some "variable", domain := some Domain.binary })],
    edges := [{ u := "c", v := "x", is_linear := some true, coeff := some 1 },
              { u := "c", v := "z", is_linear := some true, coeff := some 2 }] }

/-- The graph produced for `dupModel` (the repeated term overwrote the
coefficient). -/
def dupGraph : Graph :=
  { nodes := [("c", { type := some "constraint", kind := some "leq",
                      original_kind := some "leq", is_linear := some true,
                      bound := some 5 }),
              ("x", { type := some "variable", domain := some Domain.continuous,
                      obj_coeff := some 1 })],
    edges := [{ u := "c", v := "x", is_linear := some true, coeff := some 2 }] }

/-- The graph after processing `dupConstr` alone (before any objective pass). -/
def preDupGraph : Graph :=
  { nodes := [("c", { type := some "constraint", kind := some "leq",
                      original_kind := some "leq", is_linear := some true,
                      bound := some 5 }),
              ("x", { type := some "variable", domain := some Domain.continuous })],
    edges := [{ u := "c", v := "x", is_linear := some true, coeff := some 2 }] }

/-- The graph after the constraint pass of `objOnlyVarModel` / `maxObjModel`
(both have the single constraint `x <= 5`). -/
def cOnlyGraph : Graph :=
  { nodes := [("c", { type := some "constraint", kind := some "leq",
                      original_kind := some "leq", is_linear := some true,
                      bound := some 5 }),
              ("x", { type := some "variable", domain := some Domain.continuous })],
    edges := [{ u := "c", v := "x", is_linear := some true, coeff := some 1 }] }

/-- The graph the builder produces for `maxObjModel`. -/
def maxGraph : Graph :=
  { nodes := [("c", { type := some "constraint", kind := some "leq",
                      original_kind := some "leq", is_linear := some true,
                      bound := some 5 }),
              ("x", { type := some "variable", domain := some Domain.continuous,
                      obj_coeff := some (-2) })],
    edges := [{ u := "c", v := "x", is_linear := some true, coeff := some 1 }] }

/-- The attribute record of node `x` in `maxGraph`. -/
def maxXData : NodeData :=
  { type := some "variable", domain := some Domain.continuous, obj_coeff := some (-2) }

/-! ### Spec-side measurement definitions -/

/-- Following the spec's words: the degrees of the CONSTRAINT nodes of a graph
(what the `vcg_constraint_node_degree_*` features are documented to measure). -/
def constraintNodeDegrees (g : Graph) : List ℚ :=
  (constraintNodes g).map (fun p => (g.degree p.1 : ℚ))

/-- Following the spec's words: the per-constraint sums of linear-edge
coefficients measured on the copy of the graph from which the complementary
variable set has been deleted (what the restricted
`…constraint_coefficient_sum` features are documented to measure). -/
def specRestrictedConstraintCoeffSums (g : Graph)
    (toRemove : List (String × NodeData)) : List ℚ :=
  let g2 := g.removeNodes (toRemove.map (fun p => p.1))
  (constraintNodes g2).map (fun p => linearCoeffSum g2 p.1)

/-! ### Claim theorems -/

/-- C1: for a lower-bounded-only constraint (`x >= 3`) the builder emits
`kind=leq`, `original_kind=geq` and the negated bound `-3` after constant-term
absorption, but the stored edge coefficient is the raw source coefficient `+1`:
it is *not* multiplied by the sign multiplier `-1` as the spec (and the
module's own `get_features` docstring) state. -/
theorem geq_coeff_not_flipped :
    get_variable_constraint_graph geqModel = .ok geqGraph ∧
    (geqGraph.nodeData "c").map (fun d => (d.kind, d.original_kind, d.bound))
      = some (some "leq", some "geq", some (-3 : ℚ)) ∧
    edgeCoeff geqGraph "c" "x" = some 1 ∧
    edgeCoeff geqGraph "c" "x" ≠ some ((-1 : ℚ) * 1) := by
  refine ⟨by rfl, by decide, by decide, by decide⟩

/-- C2: on `degModel` (one constraint over two variables) the
`vcg_constraint_node_degree_mean` feature is 1 — the mean of the degrees of the
remaining VARIABLE nodes — while the mean of the constraint-node degrees of the
same graph is 2: the block filters `type == "variable"` although the features
are named after constraint nodes. -/
theorem constraint_degree_features_measure_variable_nodes :
    get_variable_constraint_graph degModel = .ok degGraph ∧
    (get_features degModel).toOption.map
        (fun fs => featVal fs "vcg_constraint_node_degree_mean")
      = some (some (FVal.q 1)) ∧
    npMean (constraintNodeDegrees degGraph) = 2 ∧
    (1 : ℚ) ≠ 2 := by
  refine ⟨by rfl, by decide, by decide, by decide⟩

/-- C3: on `mixModel` (constraint `x + 2z <= 5` with `x` continuous and `z`
binary) the `continuous_constraint_coefficient_sum_mean` feature equals the
unrestricted `constraint_coefficient_sum_mean` (both 3), because the pruned
copy is never read; the restriction the spec describes would give 1. -/
theorem restricted_coeff_sum_ignores_restriction :
    get_variable_constraint_graph mixModel = .ok mixGraph ∧
    (get_features mixModel).toOption.map (fun fs =>
        (featVal fs "continuous_constraint_coefficient_sum_mean",
         featVal fs "constraint_coefficient_sum_mean"))
      = some (some (FVal.q 3), some (FVal.q 3)) ∧
    specRestrictedConstraintCoeffSums mixGraph (nonContinuousVariableNodes mixGraph)
      = [1] ∧
    (3 : ℚ) ≠ 1 := by
  refine ⟨by rfl, by decide, by decide, by decide⟩

/-- C4 counterexample: the builder accepts `nonlinObjModel` (nonlinear
objective), but `get_features` fails on it — the objective blocks iterate the
`None` returned by `decompose_term` for a nonlinear objective. -/
theorem features_fail_on_nonlinear_objective :
    (get_variable_constraint_graph nonlinObjModel).isOk = true ∧
    get_features nonlinObjModel = .error "TypeError: NoneType object is not iterable" := by
  refine ⟨by rfl, by rfl⟩

/-- C4 (amended): `get_features` succeeds on every builder-accepted model whose
objective decomposes linearly and whose graph has at least one variable node;
the two failure modes are the nonlinear objective (`TypeError`) and the
zero-variable graph (`ZeroDivisionError` in the fraction features). -/
theorem get_features_ok_of_linear_objective (m : Model) (g : Graph) (ts : List Term)
    (h : get_variable_constraint_graph m = .ok g) (hobj : m.objBody = some ts)
    (hv : (variableNodes g).length ≠ 0) :
    get_features m = .ok (featureList g ts) := by
  unfold get_features
  rw [h]
  show (if (variableNodes g).length = 0 then
        (Except.error "ZeroDivisionError: division by zero")
      else match m.objBody with
        | none => Except.error "TypeError: NoneType object is not iterable"
        | some ts => Except.ok (featureList g ts)) = Except.ok (featureList g ts)
  rw [if_neg hv, hobj]

/-- C4 witness: `get_features` succeeds on `degModel`. -/
theorem get_features_ok_of_linear_objective_witness :
    (variableNodes degGraph).length ≠ 0 ∧
    get_features degModel = .ok (featureList degGraph [⟨1, some xCont⟩]) := by
  refine ⟨by decide, ?_⟩
  exact get_features_ok_of_linear_objective degModel degGraph [⟨1, some xCont⟩]
    (by rfl) rfl (by decide)

/-- C5 counterexample: for `dupModel` (`1*x + 2*x <= 5`) the graph has a single
edge for the pair (x, c), and its `coeff` is 2 — the coefficient of the last
repeated term — not the sum 3. -/
theorem dup_terms_coeff_not_summed :
    get_variable_constraint_graph dupModel = .ok dupGraph ∧
    dupGraph.edges.length = 1 ∧
    edgeCoeff dupGraph "c" "x" = some 2 ∧
    edgeCoeff dupGraph "c" "x" ≠ some ((1 : ℚ) + 2) := by
  refine ⟨by rfl, by decide, by decide, by decide⟩

/-- C5 (amended): every builder graph has at most one edge per unordered node
pair, and for a linear constraint the surviving `coeff` of the (constraint,
variable) edge is the coefficient of the LAST term of the body mentioning that
variable (networkx attribute overwrite), not the sum. -/
theorem edge_coeff_last_write_wins :
    (∀ m g, get_variable_constraint_graph m = .ok g → uniqueEdges g) ∧
    (∀ g c g' ts vn, processConstraint g c = .ok g' → c.body = some ts →
      vn ≠ c.name →
      edgeCoeff g' c.name vn
        = match lastMention ts vn with
          | some q => some q
          | none => edgeCoeff g c.name vn) :=
  ⟨uniqueEdges_builder,
   fun g c g' ts vn h hb hvn => edgeCoeff_processConstraint g c g' ts vn h hb hvn⟩

/-- C5 witness: applied to `dupModel`, overwriting leaves the last
coefficient 2 on the single (c, x) edge. -/
theorem edge_coeff_last_write_wins_witness :
    dupGraph.edges.countP (fun e => e.joins "c" "x") ≤ 1 ∧
    edgeCoeff preDupGraph "c" "x" = some 2 := by
  refine ⟨edge_coeff_last_write_wins.1 dupModel dupGraph (by rfl) "c" "x", ?_⟩
  have h := edge_coeff_last_write_wins.2 Graph.empty dupConstr preDupGraph
    [⟨1, some xCont⟩, ⟨2, some xCont⟩] "x" (by rfl) rfl (by decide)
  exact h.trans (by decide)

/-- C6: a constraint with two distinct bounds makes `processConstraint` raise
the ranged-constraint error (`NotImplementedError`, the spec's
`UnsupportedRangedConstraint`) from any graph state, and a model containing
such a constraint never yields a graph — the builder aborts with an error. -/
theorem ranged_constraint_rejected (m : Model) (c : Constr) (hc : c ∈ m.constraints)
    (l u : ℚ) (hl : c.lb = some l) (hu : c.ub = some u) (hne : l ≠ u) :
    (∀ g, processConstraint g c = .error rangedMsg) ∧
    ∃ e, get_variable_constraint_graph m = .error e := by
  have hproc : ∀ g, processConstraint g c = .error rangedMsg := by
    intro g
    unfold processConstraint normalizeBounds
    rw [hl, hu]
    simp [hne]
  refine ⟨hproc, ?_⟩
  obtain ⟨e, he⟩ := foldlM_except_error_of_mem processConstraint m.constraints c hc
    (fun s => ⟨rangedMsg, hproc s⟩) Graph.empty
  refine ⟨e, ?_⟩
  unfold get_variable_constraint_graph
  rw [he]
  rfl

/-- C6 witness: the concrete ranged model `1 <= x <= 2` is rejected. -/
theorem ranged_constraint_rejected_witness :
    processConstraint Graph.empty rangedConstr = .error rangedMsg ∧
    ∃ e, get_variable_constraint_graph rangedModel = .error e := by
  have h := ranged_constraint_rejected rangedModel rangedConstr (by decide)
    1 2 rfl rfl (by decide)
  exact ⟨h.1 Graph.empty, h.2⟩

/-- C7: the feature mapping of `degModel` has the `leq_constraint_bounds_*` and
`eq_constraint_bounds_mean` keys, reports the empty eq-distribution statistics
as exactly 0.0 — but the eq standard-deviation key is spelled
`eq_constraint_bonds_stddev`; the documented `eq_constraint_bounds_stddev` key
is absent from every mapping. -/
theorem eq_bound_stddev_key_misspelled :
    (get_features degModel).toOption.map (fun fs =>
      (hasKey fs "leq_constraint_bounds_mean",
       hasKey fs "leq_constraint_bounds_stddev",
       hasKey fs "eq_constraint_bounds_mean",
       hasKey fs "eq_constraint_bounds_stddev",
       hasKey fs "eq_constraint_bonds_stddev",
       featVal fs "eq_constraint_bounds_mean",
       featVal fs "eq_constraint_bonds_stddev"))
    = some (true, true, true, false, true, some (FVal.q 0), some (FVal.q 0)) ∧
    (get_features degModel).toOption.map List.length = some 81 := by
  refine ⟨by rfl, by rfl⟩

/-- C8: in every graph the builder returns, the `obj_coeff` attribute of a node
is exactly the coefficient of the (last) objective term mentioning it times the
objective multiplier (+1 minimize, -1 maximize); nodes not mentioned in the
objective — and every node when the objective is nonlinear — carry no
`obj_coeff`. -/
theorem obj_coeff_sign_normalized (m : Model) (g : Graph)
    (h : get_variable_constraint_graph m = .ok g) (n : String) (d : NodeData)
    (hd : g.nodeData n = some d) :
    d.obj_coeff
      = match m.objBody with
        | none => none
        | some ts => (lastMention ts n).map (fun c => c * objMult m.objSense) := by
  obtain ⟨g0, hf, ho⟩ := builder_split m g h
  have hg0 := noObjCoeff_constraintFold m g0 hf
  unfold objectivePass at ho
  cases hb : m.objBody with
  | none =>
    rw [hb] at ho
    simp only [Except.ok.injEq] at ho
    subst ho
    exact hg0 n d hd
  | some ts =>
    rw [hb] at ho
    have hchar := objFold_characterize m.objSense ts g0 g ho n
    have hval : objCoeffOf g n = d.obj_coeff := by
      unfold objCoeffOf
      rw [hd]
      rfl
    have h0 : objCoeffOf g0 n = none := by
      unfold objCoeffOf
      cases hd0 : g0.nodeData n with
      | none => rfl
      | some d0 => simpa using hg0 n d0 hd0
    cases hl : lastMention ts n with
    | some c =>
      rw [hl] at hchar
      rw [← hval, hchar]
      simp [hl]
    | none =>
      rw [hl] at hchar
      rw [← hval, hchar, h0]
      simp [hl]

/-- C8 witness: on `maxObjModel` (maximize `2x + 5`), node `x` carries
`obj_coeff = -2`. -/
theorem obj_coeff_sign_normalized_witness :
    (maxXData.obj_coeff
      = match maxObjModel.objBody with
        | none => none
        | some ts => (lastMention ts "x").map (fun c => c * objMult maxObjModel.objSense)) ∧
    maxXData.obj_coeff = some (-2) := by
  refine ⟨?_, by decide⟩
  exact obj_coeff_sign_normalized maxObjModel maxGraph (by rfl) "x" maxXData (by decide)

/-- C9: once the constraint pass has produced the graph, a linear objective
mentioning a variable absent from it makes the builder fail with the
objective-only-variable `ValueError`, while a model whose objective variables
all participate in constraints succeeds — constant terms (`var = None`) never
trigger the error. -/
theorem objective_only_variable_fatal (m : Model) (g0 : Graph) (ts : List Term)
    (h0 : m.constraints.foldlM processConstraint Graph.empty = .ok g0)
    (hobj : m.objBody = some ts) :
    ((∃ t ∈ ts, ∃ v, t.var = some v ∧ g0.hasNode v.name = false) →
      ∃ e, get_variable_constraint_graph m = .error e) ∧
    ((∀ t ∈ ts, ∀ v, t.var = some v → g0.hasNode v.name = true) →
      ∃ g, get_variable_constraint_graph m = .ok g) := by
  have hbuilder : get_variable_constraint_graph m = objectivePass m g0 := by
    unfold get_variable_constraint_graph
    rw [h0]
    rfl
  constructor
  · rintro ⟨t, ht, v, hv, hmiss⟩
    obtain ⟨e, he⟩ := objFold_error_of_missing m.objSense ts g0 t ht v hv hmiss
    refine ⟨e, ?_⟩
    rw [hbuilder]
    unfold objectivePass
    rw [hobj]
    exact he
  · intro hall
    obtain ⟨g, hg⟩ := objFold_ok_of_allPresent m.objSense ts g0 hall
    refine ⟨g, ?_⟩
    rw [hbuilder]
    unfold objectivePass
    rw [hobj]
    exact hg

/-- C9 witness: `objOnlyVarModel` (objective `2y + 5` with `y` unconstrained)
fails, while `maxObjModel` (objective `2x + 5`, constant term included, `x`
constrained) succeeds. -/
theorem objective_only_variable_fatal_witness :
    (∃ e, get_variable_constraint_graph objOnlyVarModel = .error e) ∧
    (∃ g, get_variable_constraint_graph maxObjModel = .ok g) := by
  constructor
  · exact (objective_only_variable_fatal objOnlyVarModel cOnlyGraph
      [⟨2, some yCont⟩, ⟨5, none⟩] (by rfl) rfl).1
      ⟨⟨2, some yCont⟩, by decide, yCont, rfl, by decide⟩
  · exact (objective_only_variable_fatal maxObjModel cOnlyGraph
      [⟨2, some xCont⟩, ⟨5, none⟩] (by rfl) rfl).2 (by decide)

/-- C10: in every graph the builder returns, every node whose `type` attribute
is `"variable"` has degree at least 1 — variable nodes are only ever created
together with an edge to the constraint being processed, and the objective pass
creates no nodes. -/
theorem variable_nodes_never_isolated (m : Model) (g : Graph)
    (h : get_variable_constraint_graph m = .ok g) :
    ∀ p ∈ g.nodes, p.2.type = some "variable" → 1 ≤ g.degree p.1 :=
  varDegOK_builder m g h

/-- C10 witness: the variable node of `geqModel` has degree 1. -/
theorem variable_nodes_never_isolated_witness :
    1 ≤ geqGraph.degree "x" ∧ geqGraph.degree "x" = 1 := by
  refine ⟨?_, by decide⟩
  exact variable_nodes_never_isolated geqModel geqGraph (by rfl)
    ("x", { type := some "variable", domain := some Domain.continuous,
            obj_coeff := some 1 })
    (by decide) rfl

end DiscreteNet
